import Mathlib

/-!
# Verification of the pear reachability / refinement / purity pipeline

Shallow embedding of the three analysis stages of the `pear` repository:

* the Reachability Collector (`pear_backend/src/reachability/collector.rs`),
* the Call-Graph Refiner (`pear_backend/src/refiner/refiner.rs`),
* the Purity/Taint Analyzer
  (`pear_frontend/src/analysis/scrutinizer/analyzer/analyzer.rs`) together
  with the Important-Locals transition
  (`pear_frontend/src/analysis/scrutinizer/important/important.rs`).

Compiler-internal identifiers (`DefId`, `Instance`, signatures, spans, body
ids) are modelled as natural numbers; queries answered by the compiler's
type context (`tcx`) are context fields.  Recursions whose termination the
source obtains from finiteness of the instance universe are modelled with an
explicit fuel parameter; every theorem quantifies over the fuel.
-/

namespace Pear

/-! ## Collector data model (`collector.rs`) -/

/-- Differentiates between methods coming from an impl block and inherent
ones.  Mirrors `ImplType` in `collector.rs`. -/
inductive ImplType where
  | explicit (defId : Nat)
  | inherent
deriving DecidableEq

/-- How a mono item was discovered from its user; mirrors `Usage<'tcx>` in
`collector.rs`.  Signatures are erased to numeric identifiers. -/
inductive Usage where
  | root
  | call
  | drop
  | assert
  | unwind
  | inlineAsm
  | staticRef
  | indirectDrop
  | threadLocalShim
  | staticFn (sig : Nat)
  | fnPtr (sig : Nat)
  | vtableItem (traitDefId : Nat) (implType : ImplType)
  | fnTraitItem (sig : Nat)
  | staticClosureShim (sig : Nat)
deriving DecidableEq

/-- A mono item: a function instance, a static, or a global-asm block.
Mirrors `rustc_middle::mir::mono::MonoItem`. -/
inductive MonoItem where
  | fn (inst : Nat)
  | staticItem (defId : Nat)
  | globalAsm (itemId : Nat)
deriving DecidableEq

/-- Mono item with usage specifics attached; mirrors `Node<'tcx>` in
`collector.rs`. -/
structure Node where
  item : MonoItem
  usage : Usage
deriving DecidableEq

/-- Source `Node::is_indirect`: true if the mono item was not collected as a result
of a direct invocation via a terminator. -/
def Node.isIndirect (n : Node) : Bool :=
  match n.usage with
  | .staticFn _ | .vtableItem _ _ | .fnTraitItem _ | .fnPtr _
  | .staticClosureShim _ => true
  | _ => false

/-- Source `Node::expect_instance`, made total: the signature-carrying and vtable
usages are only ever attached to `MonoItem::Fn` items by the collector, so
the `bug!` branch of the source is modelled by a default value. -/
def Node.expectInstance (n : Node) : Nat :=
  match n.item with
  | .fn inst => inst
  | _ => 0

/-- Usage graph of the collector: forward and backward adjacency maps,
mirroring `UsageGraph<'tcx>`.  The hash maps are modelled as total functions
from keys to edge lists; a key that was never touched maps to `[]`. -/
structure UsageGraph where
  forward : MonoItem → List Node
  backward : MonoItem → List Node

def UsageGraph.empty : UsageGraph := ⟨fun _ => [], fun _ => []⟩

/-- Set insertion into an edge list (`FxHashSet::insert`). -/
def insertNode (n : Node) (l : List Node) : List Node :=
  if n ∈ l then l else n :: l

/-- Point update of an adjacency map (`entry(k).or_default()`). -/
def updateMap (f : MonoItem → List Node) (k : MonoItem)
    (upd : List Node → List Node) : MonoItem → List Node :=
  fun m => if m = k then upd (f m) else f m

/-- Source `UsageGraph::record_used`: every used item gets a backward edge to the
user, and the user's forward edge list is extended with all used items. -/
def UsageGraph.recordUsed (g : UsageGraph) (userItem : Node)
    (usedItems : List Node) : UsageGraph :=
  let g₁ := usedItems.foldl
    (fun acc usedItem =>
      { acc with
        backward := updateMap acc.backward usedItem.item (insertNode userItem) })
    g
  { g₁ with
    forward := updateMap g₁.forward userItem.item
      (fun l => usedItems.foldl (fun acc u => insertNode u acc) l) }

/-- Environment of the collector: which items are foreign (no body), and the
used items found by scanning an item's MIR/static initializer/asm block
(`collect_used_items`, the `MonoItem::Static` branch and the
`MonoItem::GlobalAsm` branch of `collect_items_rec`).  The scan receives the
full node because `collect_used_items` consults the node's usage (the
static-closure-shim check in `visit_terminator`). -/
structure CollectCtx where
  isForeign : MonoItem → Bool
  usedItems : Node → List Node

/-- Source `collect_items_rec`: depth-first expansion with a visited set.  The
visited set is the `FxHashSet<Node>` of the source, modelled as a list;
recursion depth is bounded by fuel instead of by finiteness of the mono-item
universe. -/
def collectItemsRec (ctx : CollectCtx) :
    Nat → Node → List Node → UsageGraph → List Node × UsageGraph
  | 0, _, visited, usageMap => (visited, usageMap)
  | fuel + 1, startingItem, visited, usageMap =>
    if startingItem ∈ visited then
      (visited, usageMap)
    else
      let visited := startingItem :: visited
      if ctx.isForeign startingItem.item then
        (visited, usageMap)
      else
        let usedItems := ctx.usedItems startingItem
        let usageMap := usageMap.recordUsed startingItem usedItems
        usedItems.foldl
          (fun acc usedItem =>
            collectItemsRec ctx fuel usedItem acc.1 acc.2)
          (visited, usageMap)

/-- Source `collect_from`: seeds the walk with `(root, Usage::Root)` on empty
state. -/
def collectFrom (ctx : CollectCtx) (fuel : Nat) (root : MonoItem) :
    List Node × UsageGraph :=
  collectItemsRec ctx fuel ⟨root, .root⟩ [] UsageGraph.empty

/-- A forward edge between two callable units: the user's forward list has a
node for the used item (under some usage kind). -/
def UsageGraph.forwardEdge (g : UsageGraph) (user used : MonoItem) : Prop :=
  ∃ n ∈ g.forward user, n.item = used

/-- The corresponding reverse edge: the used item's backward list has a node
for the user (the backward map stores the user's discovery node). -/
def UsageGraph.backwardEdge (g : UsageGraph) (used user : MonoItem) : Prop :=
  ∃ n ∈ g.backward used, n.item = user

/-- Symmetry of the usage graph at unit granularity. -/
def UsageGraph.Symm (g : UsageGraph) : Prop :=
  ∀ user used, g.forwardEdge user used ↔ g.backwardEdge used user

/-! ## Unsizing casts and dispatch tables (`collector.rs`)

Types are modelled only as far as `find_vtable_types_for_unsizing` inspects
them.  An ADT is represented by its identifier together with the single
field selected by `custom_coerce_unsize_info` / followed by
`struct_tail_erasing_lifetimes` (for the unsizing coercions handled here the
coercion field is the unsized tail; the remaining, never-inspected fields
are omitted). -/

/-- Model of `rustc` types as inspected by the unsizing-cast logic.
`dynamic p star` is a trait object with optional principal trait `p`;
`star = true` is the `dyn*` flavour. -/
inductive MTy where
  | ref (t : MTy)
  | rawPtr (t : MTy)
  | boxT (t : MTy)
  | adt (adtId : Nat) (tailField : MTy)
  | dynamic (principal : Option Nat) (star : Bool)
  | strTy
  | slice (t : MTy)
  | foreignTy
  | prim (n : Nat)
deriving DecidableEq

/-- Source `Ty::is_trait`: an ordinary (non-`dyn*`) trait object. -/
def MTy.isTrait : MTy → Bool
  | .dynamic _ star => !star
  | _ => false

/-- Source `Ty::is_dyn_star`. -/
def MTy.isDynStar : MTy → Bool
  | .dynamic _ star => star
  | _ => false

/-- Source `Ty::is_sized` (`dyn*` objects are sized; an ADT is as sized as its
tail field). -/
def MTy.isSized : MTy → Bool
  | .ref _ | .rawPtr _ | .boxT _ | .prim _ => true
  | .dynamic _ star => star
  | .strTy | .slice _ | .foreignTy => false
  | .adt _ tailField => tailField.isSized

/-- Source `tcx.struct_tail_erasing_lifetimes`: follow ADT tail fields. -/
def MTy.structTail : MTy → MTy
  | .adt _ tailField => tailField.structTail
  | t => t

/-- The `type_has_metadata` closure of `find_vtable_types_for_unsizing`. -/
def typeHasMetadata (t : MTy) : Bool :=
  if t.isSized then false
  else
    match t.structTail with
    | .foreignTy => false
    | .strTy | .slice _ | .dynamic _ _ => true
    | _ => false

/-- Source `tcx.struct_lockstep_tails_erasing_lifetimes`: peel matching ADT layers
in lockstep. -/
def lockstepTails : MTy → MTy → MTy × MTy
  | .adt i a, .adt j b => if i = j then lockstepTails a b else (.adt i a, .adt j b)
  | a, b => (a, b)

/-- The `ptr_vtable` closure of `find_vtable_types_for_unsizing`. -/
def ptrVtable (innerSource innerTarget : MTy) : MTy × MTy :=
  if typeHasMetadata innerSource then (innerSource, innerTarget)
  else lockstepTails innerSource innerTarget

/-- Source `find_vtable_types_for_unsizing`: peel one layer of
pointer/box/struct-field indirection at a time until the pair of types that
the dispatch table links is found.  `none` models the `bug!`/`assert` abort
arms. -/
def findVtableTypesForUnsizing : MTy → MTy → Option (MTy × MTy)
  | .ref a, .ref b => some (ptrVtable a b)
  | .ref a, .rawPtr b => some (ptrVtable a b)
  | .rawPtr a, .rawPtr b => some (ptrVtable a b)
  | .boxT a, .boxT b => some (ptrVtable a b)
  | sourceTy, .dynamic p true => some (ptrVtable sourceTy (.dynamic p true))
  | .adt i a, .adt j b =>
      if i = j then findVtableTypesForUnsizing a b else none
  | _, _ => none

/-- Entries of a dispatch table; mirrors `rustc_middle::ty::VtblEntry`. -/
inductive MVtblEntry where
  | metadataDropInPlace
  | metadataSize
  | metadataAlign
  | vacant
  | traitVPtr (traitId : Nat)
  | method (inst : Nat)
deriving DecidableEq

/-- Compiler-supplied data consulted by
`create_mono_items_for_vtable_methods`. -/
structure CastCtx where
  /-- Source `tcx.vtable_entries` for the principal trait with the given self
  type (includes supertrait methods, per its contract). -/
  vtableEntries : Nat → MTy → List MVtblEntry
  /-- trait providing the method:
  `impl_of_method(..).and_then(trait_id_of_impl).unwrap_or(principal)`. -/
  methodTraitDefId : Nat → Nat → Nat
  /-- Source `tcx.is_fn_trait`. -/
  isFnTrait : Nat → Bool
  /-- Source `impl_of_method(..).map(Explicit).unwrap_or(Inherent)`. -/
  implTypeOf : Nat → ImplType
  /-- Source `fn_trait_method_sig` for a fn-trait vtable method. -/
  fnTraitSig : Nat → Nat
  /-- the instance `drop_in_place::<implTy>` resolves to
  (`visit_drop_use`). -/
  dropGlueInstance : MTy → Nat

/-- The usage recorded for one vtable method entry
(`create_mono_items_for_vtable_methods`, the `map` over methods). -/
def vtableMethodNode (ctx : CastCtx) (principal inst : Nat) : Node :=
  let traitDefId := ctx.methodTraitDefId inst principal
  if ctx.isFnTrait traitDefId then
    ⟨.fn inst, .fnTraitItem (ctx.fnTraitSig inst)⟩
  else
    ⟨.fn inst, .vtableItem traitDefId (ctx.implTypeOf inst)⟩

/-- Source `create_mono_items_for_vtable_methods`: for a trait-object target, one
node per `VtblEntry::Method` of the dispatch table (metadata entries,
vacant slots and super-trait pointers are skipped), followed by the
`IndirectDrop` node for the destructor entry of the concrete type
(`visit_drop_use(impl_ty, false, IndirectDrop)`, which always pushes the
resolved drop-glue instance since the call is not direct). -/
def createMonoItemsForVtableMethods (ctx : CastCtx) (traitTy implTy : MTy) :
    List Node :=
  match traitTy with
  | .dynamic principalOpt _ =>
      let methodNodes :=
        match principalOpt with
        | some principal =>
            ((ctx.vtableEntries principal implTy).filterMap
              (fun e => match e with
                | .method inst => some inst
                | _ => none)).map (vtableMethodNode ctx principal)
        | none => []
      methodNodes ++ [⟨.fn (ctx.dropGlueInstance implTy), .indirectDrop⟩]
  | _ => []

/-- The unsize/`dyn*` cast arm of `MirUsedCollector::visit_rvalue`:
monomorphized source/target are peeled with
`find_vtable_types_for_unsizing`; if the peeled pair turns a non-trait
source into a trait-object target (or non-`dyn*` into `dyn*`), the dispatch
table's nodes are emitted.  `none` models the abort inside the peeling. -/
def visitUnsizeCast (ctx : CastCtx) (sourceTy targetTy : MTy) :
    Option (List Node) :=
  match findVtableTypesForUnsizing sourceTy targetTy with
  | none => none
  | some (s, t) =>
      if (t.isTrait && !s.isTrait) || (t.isDynStar && !s.isDynStar) then
        some (createMonoItemsForVtableMethods ctx t s)
      else
        some []

/-- Wrap a type in `k` matching ADT layers (used to state that the peeling
of struct-field indirection is deep). -/
def wrapAdt (i : Nat) : Nat → MTy → MTy
  | 0, t => t
  | k + 1, t => .adt i (wrapAdt i k t)

/-- A usage kind marking a slot of a materialized dispatch table: either an
ordinary vtable slot or a fn-trait (function-like-interface) slot. -/
def Usage.isDispatchSlot : Usage → Bool
  | .vtableItem _ _ | .fnTraitItem _ => true
  | _ => false

/-- Is a vtable entry a method entry? -/
def MVtblEntry.isMethod : MVtblEntry → Bool
  | .method _ => true
  | _ => false

/-! ## Call-graph refiner (`refiner/refiner.rs`) -/

/-- A node of the refined usage graph; mirrors `RefinedNode<'tcx>`. -/
inductive RefinedNode where
  | concrete (inst : Nat) (span : Nat)
  | refined (insts : List Nat) (span : Nat)
deriving DecidableEq

/-- Source `RefinedNode::instances`. -/
def RefinedNode.instances : RefinedNode → List Nat
  | .concrete inst _ => [inst]
  | .refined insts _ => insts

/-- Source `RefinedNode::span`. -/
def RefinedNode.span : RefinedNode → Nat
  | .concrete _ span => span
  | .refined _ span => span

/-- Refined usage graph: forward and backward adjacency, mirroring
`RefinedUsageGraph<'tcx>` (maps modelled as total functions). -/
structure RefinedUsageGraph where
  forward : Nat → List RefinedNode
  backward : RefinedNode → List Nat

def RefinedUsageGraph.empty : RefinedUsageGraph := ⟨fun _ => [], fun _ => []⟩

/-- Source `RefinedUsageGraph::add_edge`. -/
def RefinedUsageGraph.addEdge (g : RefinedUsageGraph) (fromInst : Nat)
    (toNode : RefinedNode) : RefinedUsageGraph :=
  { forward := fun i =>
      if i = fromInst then
        (if toNode ∈ g.forward i then g.forward i else toNode :: g.forward i)
      else g.forward i,
    backward := fun n =>
      if n = toNode then
        (if fromInst ∈ g.backward n then g.backward n
         else fromInst :: g.backward n)
      else g.backward n }

/-- Mutable state of the refiner walk: the refined graph plus the `warn!`
log (one entry per empty candidate search, carrying the ambiguous
signature or virtual-method identifier). -/
structure RefinerState where
  graph : RefinedUsageGraph
  warnings : List Nat

/-- The callee of one `Call` terminator, after
`instantiate_with_current_instance` and — for the `FnDef` arm —
`Instance::expect_resolve`.  `fnDef inst none` is an ordinary resolved
instance; `fnDef inst (some (m, a))` is an instance whose `def` is
`InstanceDef::Virtual(m, ..)` with generic arguments `a`; `fnPtr sig` is a
function-pointer type with its region-erased signature; `unexpected` is any
other callee type (fatal in the source). -/
inductive MCallee where
  | fnDef (inst : Nat) (virtualMethod : Option (Nat × Nat))
  | fnPtr (sig : Nat)
  | unexpected
deriving DecidableEq

/-- One `Call` terminator of a body. -/
structure MCall where
  callee : MCallee
  span : Nat
deriving DecidableEq

/-- Environment of the refiner.  `sigEq` is `fn_sig_eq_with_subtyping`
(`refiner/utils.rs`, the erased/region-insensitive, subtyping-tolerant
signature comparison), kept abstract; `pool` is the reachable set handed
over by the collector. -/
structure RefCtx where
  sigEq : Nat → Nat → Bool
  pool : List Node
  /-- Source `tcx.is_fn_trait(tcx.parent(method_def_id))`. -/
  isFnTraitParent : Nat → Bool
  /-- Source `fn_trait_method_sig(method_def_id, args)`. -/
  fnTraitMethodSig : Nat → Nat → Nat
  /-- Source `tcx.impl_item_implementor_ids(impl).get(method)`. -/
  implItemImplementor : Nat → Nat → Option Nat
  /-- Source `is_virtual` on a resolved candidate instance. -/
  isVirtualInst : Nat → Bool
  /-- Source `tcx.is_foreign_item`. -/
  isForeignInst : Nat → Bool
  /-- Source `is_intrinsic`. -/
  isIntrinsicInst : Nat → Bool
  /-- the `Call` terminators found by `visit_body` on
  `tcx.instance_mir(inst)`. -/
  bodyCalls : Nat → List MCall

/-- The candidate pool restricted to indirectly reachable items
(`RefinerVisitor::new` filters `reachable` by `is_indirect`). -/
def RefCtx.reachableIndirect (ctx : RefCtx) : List Node :=
  ctx.pool.filter Node.isIndirect

/-- Source `RefinerVisitor::candidates_for_fn_ptr`: all indirectly collected
functions of the `StaticFn`/`FnPtr`/`StaticClosureShim` usages whose
signature matches under `fn_sig_eq_with_subtyping`. -/
def candidatesForFnPtr (ctx : RefCtx) (ambiguousFnSig : Nat) : List Nat :=
  ctx.reachableIndirect.filterMap
    (fun reachableIndirect =>
      match reachableIndirect.usage with
      | .staticFn indirectFnSig
      | .fnPtr indirectFnSig
      | .staticClosureShim indirectFnSig =>
          if ctx.sigEq ambiguousFnSig indirectFnSig then
            some reachableIndirect.expectInstance
          else none
      | _ => none)

/-- Source `RefinerVisitor::candidates_for_vtable_call`. -/
def candidatesForVtableCall (ctx : RefCtx) (virtualMethodDefId : Nat) :
    List Nat :=
  (ctx.reachableIndirect.filter
    (fun reachableIndirect =>
      match reachableIndirect.usage with
      | .vtableItem _ implType =>
          match implType with
          | .explicit implDefId =>
              (ctx.implItemImplementor implDefId virtualMethodDefId).elim
                false (fun implMethod => implMethod = reachableIndirect.expectInstance)
          | .inherent => virtualMethodDefId = reachableIndirect.expectInstance
      | _ => false)).map Node.expectInstance

/-- Source `RefinerVisitor::candidates_for_fn_trait_call`: matches only
`FnTraitItem` pool entries, by exact signature equality. -/
def candidatesForFnTraitCall (ctx : RefCtx) (virtualMethodDefId : Nat)
    (virtualArgs : Nat) : List Nat :=
  let indirectSig := ctx.fnTraitMethodSig virtualMethodDefId virtualArgs
  (ctx.reachableIndirect.filter
    (fun reachableIndirect =>
      match reachableIndirect.usage with
      | .fnTraitItem sig => indirectSig = sig
      | _ => false)).map Node.expectInstance

/-- Source `RefinerVisitor::candidates_for_virtual`. -/
def candidatesForVirtual (ctx : RefCtx) (virtualMethodDefId : Nat)
    (virtualArgs : Nat) : List Nat :=
  if ctx.isFnTraitParent virtualMethodDefId then
    candidatesForFnTraitCall ctx virtualMethodDefId virtualArgs
  else
    candidatesForVtableCall ctx virtualMethodDefId

/-- Modelled from the spec: the candidate search the specification
describes for a raw function-pointer callee — "search the candidate pool's
signature-carrying entries (`StaticFunctionValue`, `FunctionPointerValue`,
`StaticClosureShim`, `FunctionLikeInterfaceSlot`) for ones whose signature
is equal under an erased/region-insensitive, subtyping-tolerant comparison".
Used only to compare the spec's wording against `candidates_for_fn_ptr`. -/
def specFnPtrCandidates (ctx : RefCtx) (ambiguousFnSig : Nat) : List Nat :=
  ctx.reachableIndirect.filterMap
    (fun n =>
      match n.usage with
      | .staticFn sig | .fnPtr sig | .staticClosureShim sig
      | .fnTraitItem sig =>
          if ctx.sigEq ambiguousFnSig sig then some n.expectInstance else none
      | _ => none)

/-- Fold a fallible step over a list, aborting on the first failure. -/
def optFold (f : RefinerState → α → Option RefinerState) :
    List α → RefinerState → Option RefinerState
  | [], st => some st
  | a :: rest, st =>
      match f st a with
      | none => none
      | some st₁ => optFold f rest st₁

/-- Source `RefinerVisitor::refine_rec` for one `Call` terminator of the body of
`currentInstance`, followed by the recursive walk into every resolved
callee's body (`visit_body` on the swapped-in body).  `none` models
`panic_and_dump_call_stack`; the fuel bounds the call-graph recursion
depth. -/
def refineRec (ctx : RefCtx) :
    Nat → Nat → MCall → RefinerState → Option RefinerState
  | 0, _, _, _ => none
  | fuel + 1, currentInstance, call, st =>
      let refinedWarn : Option (RefinedNode × List Nat) :=
        match call.callee with
        | .fnDef inst none => some (.concrete inst call.span, [])
        | .fnDef _ (some (methodDefId, args)) =>
            let cands := candidatesForVirtual ctx methodDefId args
            some (.refined cands call.span,
                  if cands.isEmpty then [methodDefId] else [])
        | .fnPtr sig =>
            let cands := candidatesForFnPtr ctx sig
            some (.refined cands call.span,
                  if cands.isEmpty then [sig] else [])
        | .unexpected => none
      match refinedWarn with
      | none => none
      | some (refined, warns) =>
          let st := { st with warnings := st.warnings ++ warns }
          -- Skip the function if it is already in the usage graph.
          if refined ∈ st.graph.forward currentInstance then
            some st
          else
            let st := { st with graph := st.graph.addEdge currentInstance refined }
            optFold
              (fun st₁ callee =>
                -- Resolved callee should not be virtual.
                if ctx.isVirtualInst callee then none
                -- Skip recurring into the item if the item does not have a body.
                else if ctx.isForeignInst callee || ctx.isIntrinsicInst callee then
                  some st₁
                else
                  optFold (fun st₂ c => refineRec ctx fuel callee c st₂)
                    (ctx.bodyCalls callee) st₁)
              refined.instances st

/-- Source `refine_from` / `RefinerVisitor::refine`: walk the root's body on an
empty refined graph. -/
def refineFrom (ctx : RefCtx) (fuel : Nat) (root : Nat) :
    Option RefinerState :=
  optFold (fun st c => refineRec ctx fuel root c st) (ctx.bodyCalls root)
    ⟨RefinedUsageGraph.empty, []⟩

/-! ## Purity/taint analyzer (`analyzer/analyzer.rs`)

`ImportantLocals` is a set of local indices, modelled as a list.  A MIR
operand is modelled by what `Operand::place().and_then(as_local)` yields:
`some l` for a whole local, `none` otherwise.  Body snapshots are numeric
identifiers. -/

/-- One audit record; mirrors `FunctionWithMetadata` as constructed at the
call sites in `analyzer.rs` (function, important locals, raw-pointer-deref
flag, allowlisted flag, transmute flag). -/
structure AuditRec where
  function : Nat
  importantLocals : List Nat
  rawPointerDeref : Bool
  allowlisted : Bool
  hasTransmute : Bool
deriving DecidableEq

/-- Outcome of `substituted_mir` (`scrutinizer_local.rs`). -/
inductive SubstMirRes where
  | ok (bodyId : Nat)
  | unimportantMir
  | noCallableMir
  | noMirFound
deriving DecidableEq

/-- Mutable state of `ScrutinizerAnalysis`: the two audit-record vectors and
the call stack.  `decisions` is a ghost field recording every per-unit
pass/fail decision the analyzer arrives at (each `analyze_item` verdict and
each unimportant-MIR pass-through verdict); it is write-only and exists
solely so that the audit-trail claims can be stated. -/
structure AnalyzerState where
  passingCalls : List AuditRec
  failingCalls : List AuditRec
  stack : List Nat
  decisions : List (Nat × Bool)
deriving DecidableEq

def AnalyzerState.pushPassing (st : AnalyzerState) (r : AuditRec) :
    AnalyzerState :=
  { st with passingCalls := st.passingCalls ++ [r] }

def AnalyzerState.pushFailing (st : AnalyzerState) (r : AuditRec) :
    AnalyzerState :=
  { st with failingCalls := st.failingCalls ++ [r] }

def AnalyzerState.pushDecision (st : AnalyzerState) (d : Nat × Bool) :
    AnalyzerState :=
  { st with decisions := st.decisions ++ [d] }

def AnalyzerState.pushStack (st : AnalyzerState) (inst : Nat) :
    AnalyzerState :=
  { st with stack := inst :: st.stack }

def AnalyzerState.popStack (st : AnalyzerState) : AnalyzerState :=
  { st with stack := st.stack.tail }

/-- Environment of the analyzer.  Regex matching, MIR-derived heuristics and
the important-locals transition are black boxes to `analyze_item` and are
context fields. -/
structure AnalyzerCtx where
  /-- Source `self.allowlist.iter().any(|lib| lib.is_match(def_path_str))`. -/
  allowlist : Nat → Bool
  /-- Source `self.trusted_stdlib.iter().any(..)`. -/
  trustedStdlib : Nat → Bool
  /-- the `has_immut_self_ref` computation on the optimized MIR (the
  `self` receiver is an immutable reference). -/
  hasImmutSelfRef : Nat → Bool
  /-- Source `optimized_mir.has_raw_ptr_deref(tcx)`. -/
  hasRawPtrDeref : Nat → Bool
  /-- Source `optimized_mir.has_transmute(tcx)`. -/
  hasTransmute : Nat → Bool
  /-- Source `self.storage.get_forward_edges(&item)`: the refined usage graph's
  forward edges for a unit. -/
  getForwardEdges : Nat → List RefinedNode
  /-- Source `substituted_mir(item, tcx)`. -/
  subMir : Nat → SubstMirRes
  /-- body id of `tcx.instance_mir(item.def)`. -/
  instanceMir : Nat → Nat
  /-- Source `body.local_decls.len()` for a body id. -/
  localDeclsLen : Nat → Nat
  /-- Source `get_args_by_call_span(body, span)`: the argument operand lists of
  the terminators matching a call span. -/
  argsBySpan : Nat → Nat → List (List (Option Nat))
  /-- Source `ImportantLocals::transition(args, callee, callee_body, tcx)`. -/
  transitionFn : List Nat → List (Option Nat) → Nat → Option Nat → List Nat

/-- The `child_node.instances()` inner loop shared by `analyze_item` and the
unimportant-MIR branch of `analyze_child`: every candidate is evaluated
(`collect_vec` forces the whole vector), but a candidate already on the
active call stack contributes `true` without being analyzed. -/
def runChildren (handle : AnalyzerState → Nat → RefinedNode →
    Bool × AnalyzerState) :
    List Nat → RefinedNode → AnalyzerState → List Bool × AnalyzerState
  | [], _, st => ([], st)
  | childItem :: rest, childNode, st =>
      let r₁ :=
        if childItem ∈ st.stack then (true, st)
        else handle st childItem childNode
      let r₂ := runChildren handle rest childNode r₁.2
      (r₁.1 :: r₂.1, r₂.2)

/-- The `flat_map(..).all(..)` loop over the forward edges: within one
refined node all candidates are forced; across nodes the iterator stops at
the first node whose candidate vector contains a failure. -/
def runNodes (handle : AnalyzerState → Nat → RefinedNode →
    Bool × AnalyzerState) :
    List RefinedNode → AnalyzerState → Bool × AnalyzerState
  | [], st => (true, st)
  | childNode :: rest, st =>
      let r₁ := runChildren handle childNode.instances childNode st
      if r₁.1.all (fun b => b) then runNodes handle rest r₁.2
      else (false, r₁.2)

/-- The `args.into_iter().all(..)` loop of `analyze_child`: one evaluation
per matching call site, stopping at the first failing one. -/
def allArgSets (handle : AnalyzerState → List (Option Nat) →
    Bool × AnalyzerState) :
    List (List (Option Nat)) → AnalyzerState → Bool × AnalyzerState
  | [], st => (true, st)
  | args :: rest, st =>
      let r₁ := handle st args
      if r₁.1 then allArgSets handle rest r₁.2 else (false, r₁.2)

/-- Source `ScrutinizerAnalysis::analyze_item`, parameterized by the
`analyze_child` continuation.  The four early rules are applied in source
order: allowlist, empty important-locals, missing body, trusted stdlib;
then the heuristics and the dependent-call loop. -/
def analyzeItemCore (ctx : AnalyzerCtx)
    (childFn : AnalyzerState → Nat → List Nat → Nat → RefinedNode →
      Bool × AnalyzerState)
    (st : AnalyzerState) (item : Nat) (body : Option Nat)
    (importantLocals : List Nat) : Bool × AnalyzerState :=
  if ctx.allowlist item then
    (true, (st.pushDecision (item, true)).pushPassing
      ⟨item, importantLocals, false, true, false⟩)
  else if importantLocals.isEmpty then
    (true, (st.pushDecision (item, true)).pushPassing
      ⟨item, importantLocals, false, false, false⟩)
  else
    match body with
    | none =>
        (false, (st.pushDecision (item, false)).pushFailing
          ⟨item, importantLocals, false, false, false⟩)
    | some bodyId =>
        let isTrusted := ctx.trustedStdlib item && !ctx.hasImmutSelfRef item
        let hasRawPointerDeref := ctx.hasRawPtrDeref item
        let hasTransmute := ctx.hasTransmute item
        if isTrusted then
          (true, (st.pushDecision (item, true)).pushPassing
            ⟨item, importantLocals, hasRawPointerDeref, false, hasTransmute⟩)
        else
          let r₁ :=
            runNodes
              (fun st₂ childItem childNode =>
                childFn st₂ bodyId importantLocals childItem childNode)
              (ctx.getForwardEdges item) st
          if !hasRawPointerDeref && !hasTransmute && r₁.1 then
            (true, (r₁.2.pushDecision (item, true)).pushPassing
              ⟨item, importantLocals, hasRawPointerDeref, false, hasTransmute⟩)
          else
            (false, (r₁.2.pushDecision (item, false)).pushFailing
              ⟨item, importantLocals, hasRawPointerDeref, false, hasTransmute⟩)

/-- Source `ScrutinizerAnalysis::analyze_child`, with recursion depth bounded by
fuel.  For each matching call site the important locals are transitioned;
then, by the shape of `substituted_mir`: a retrieved body is analyzed as an
item, an unimportant body is skipped with its children checked directly
(over all locals of the optimized MIR), and a missing body is analyzed as a
body-less item. -/
def analyzeChildF (ctx : AnalyzerCtx) :
    Nat → AnalyzerState → Nat → List Nat → Nat → RefinedNode →
      Bool × AnalyzerState
  | 0, st, _, _, _, _ => (true, st)
  | fuel + 1, st, parentBody, parentImportantLocals, childItem, childNode =>
      let childSub := ctx.subMir childItem
      allArgSets
        (fun st₁ args =>
          let newImportantLocals :=
            ctx.transitionFn parentImportantLocals args childItem
              (match childSub with | .ok b => some b | _ => none)
          match childSub with
          | .ok childBodyId =>
              let st₂ := st₁.pushStack childItem
              let r :=
                analyzeItemCore ctx
                  (fun s b il c n => analyzeChildF ctx fuel s b il c n)
                  st₂ childItem (some childBodyId) newImportantLocals
              (r.1, r.2.popStack)
          | .unimportantMir =>
              let parentBody₁ := ctx.instanceMir childItem
              let parentImportantLocals₁ :=
                List.range (ctx.localDeclsLen parentBody₁)
              let st₂ := st₁.pushStack childItem
              let r :=
                runNodes
                  (fun s c n =>
                    analyzeChildF ctx fuel s parentBody₁
                      parentImportantLocals₁ c n)
                  (ctx.getForwardEdges childItem) st₂
              (r.1, (r.2.pushDecision (childItem, r.1)).popStack)
          | .noCallableMir | .noMirFound =>
              let st₂ := st₁.pushStack childItem
              let r :=
                analyzeItemCore ctx
                  (fun s b il c n => analyzeChildF ctx fuel s b il c n)
                  st₂ childItem none newImportantLocals
              (r.1, r.2.popStack))
        (ctx.argsBySpan parentBody childNode.span) st

/-- Source `analyze_item` at a given fuel. -/
def analyzeItemF (ctx : AnalyzerCtx) (fuel : Nat) (st : AnalyzerState)
    (item : Nat) (body : Option Nat) (importantLocals : List Nat) :
    Bool × AnalyzerState :=
  analyzeItemCore ctx (fun s b il c n => analyzeChildF ctx fuel s b il c n)
    st item body importantLocals

/-- Source `ScrutinizerAnalysis::run`: stack seeded with the origin, origin body
looked up via `substituted_mir`, then `analyze_item` on the origin. -/
def runAnalysis (ctx : AnalyzerCtx) (fuel : Nat) (origin : Nat)
    (importantLocals : List Nat) : Bool × AnalyzerState :=
  let st₀ : AnalyzerState := ⟨[], [], [origin], []⟩
  let body := match ctx.subMir origin with | .ok b => some b | _ => none
  analyzeItemF ctx fuel st₀ origin body importantLocals

/-! ## Important-locals transition (`important/important.rs`) -/

/-- Environment of `ImportantLocals::transition`.  The dataflow oracle
(`compute_dependent_locals`, an external collaborator) takes the callee's
definition identifier, the seed argument locals and the callee body and
returns the dependent locals (`Direction::Forward`). -/
structure TransitionCtx where
  /-- Source `tcx.is_constructor`. -/
  isConstructor : Nat → Bool
  /-- Source `matches!(tcx.def_kind(..), DefKind::Closure)`. -/
  isClosure : Nat → Bool
  /-- Source `num_args_for_instance`. -/
  numArgs : Nat → Nat
  /-- Source `compute_dependent_locals(tcx, def_id, targets, Forward, body)`. -/
  oracle : Nat → List Nat → Nat → List Nat

/-- Source `ImportantLocals::transition`: constructors transition to the empty set;
closures collapse caller arguments into their leading parameters (the
source panics when a closure call has neither one nor two caller arguments,
modelled as the empty set — no theorem touches that branch); otherwise each
caller argument operand that is a whole local contained in the current
important set maps to the callee parameter local at its position plus one.
With a callee body the (dataflow-)dependent locals of those parameter
locals are computed; without one the parameter locals themselves are the
new set. -/
def ImportantLocals.transition (tc : TransitionCtx) (selfLocals : List Nat)
    (argsFromCaller : List (Option Nat)) (calleeInstance : Nat)
    (calleeBody : Option Nat) : List Nat :=
  if tc.isConstructor calleeInstance then []
  else
    let importantArgsToCallee :=
      if tc.isClosure calleeInstance then
        if argsFromCaller.length = 2 then
          (List.range (tc.numArgs calleeInstance)).map (fun i => i + 1)
        else if argsFromCaller.length = 1 then [1]
        else []
      else
        argsFromCaller.enum.filterMap
          (fun p =>
            p.2.bind (fun l =>
              if l ∈ selfLocals then some (p.1 + 1) else none))
    match calleeBody with
    | some bodyId => tc.oracle calleeInstance importantArgsToCallee bodyId
    | none => importantArgsToCallee

/-! ## Concrete environments used by counterexamples and witnesses -/

/-- Collector environment in which unit 1 is discovered under two different
usage kinds, and its body scan depends on the usage it was discovered
with. -/
def collectCtxTwoUsages : CollectCtx where
  isForeign := fun _ => false
  usedItems := fun n =>
    match n with
    | ⟨.fn 0, .root⟩ => [⟨.fn 1, .call⟩, ⟨.fn 1, .fnPtr 0⟩]
    | ⟨.fn 1, .call⟩ => [⟨.fn 2, .call⟩]
    | ⟨.fn 1, .fnPtr 0⟩ => [⟨.fn 3, .call⟩]
    | _ => []

/-- Refiner environment with an empty candidate pool and one
function-pointer call (signature 5, span 99) in the root body. -/
def refCtxNoCandidates : RefCtx where
  sigEq := fun a b => a == b
  pool := []
  isFnTraitParent := fun _ => false
  fnTraitMethodSig := fun _ _ => 0
  implItemImplementor := fun _ _ => none
  isVirtualInst := fun _ => false
  isForeignInst := fun _ => false
  isIntrinsicInst := fun _ => false
  bodyCalls := fun i => if i = 0 then [⟨.fnPtr 5, 99⟩] else []

/-- Refiner environment whose candidate pool holds a single
function-like-interface (fn-trait) item of signature 5. -/
def refCtxFnTraitPool : RefCtx where
  sigEq := fun a b => a == b
  pool := [⟨.fn 7, .fnTraitItem 5⟩]
  isFnTraitParent := fun _ => false
  fnTraitMethodSig := fun _ _ => 0
  implItemImplementor := fun _ _ => none
  isVirtualInst := fun _ => false
  isForeignInst := fun _ => false
  isIntrinsicInst := fun _ => false
  bodyCalls := fun _ => []

/-- Cast environment: principal trait 0 has a dispatch table with three
metadata entries, two method entries (one of them, instance 5, provided by
super-trait 9) and a super-trait pointer. -/
def castCtxDiamond : CastCtx where
  vtableEntries := fun p _ =>
    if p = 0 then
      [.metadataDropInPlace, .metadataSize, .metadataAlign,
       .method 4, .traitVPtr 9, .method 5]
    else []
  methodTraitDefId := fun inst _ => if inst = 5 then 9 else 0
  isFnTrait := fun _ => false
  implTypeOf := fun _ => .explicit 3
  fnTraitSig := fun _ => 0
  dropGlueInstance := fun _ => 77

/-- Analyzer environment in which the root 0 calls unit 1 whose dataflow
body is unimportant MIR, and unit 1 calls unit 2 which dereferences a raw
pointer. -/
def analyzerCtxUnimportantSkip : AnalyzerCtx where
  allowlist := fun _ => false
  trustedStdlib := fun _ => false
  hasImmutSelfRef := fun _ => false
  hasRawPtrDeref := fun i => i == 2
  hasTransmute := fun _ => false
  getForwardEdges := fun i =>
    if i = 0 then [.concrete 1 5] else if i = 1 then [.concrete 2 6] else []
  subMir := fun i =>
    if i = 0 then .ok 10 else if i = 1 then .unimportantMir else .ok 12
  instanceMir := fun i => 10 + i
  localDeclsLen := fun _ => 2
  argsBySpan := fun _ _ => [[none]]
  transitionFn := fun _ _ _ _ => [1]

/-- Small analyzer environment for witnesses: unit 9 is allowlisted, unit 4
is a trusted stdlib member, unit 3 calls units 3 and 8 through one refined
node. -/
def analyzerCtxSimple : AnalyzerCtx where
  allowlist := fun i => i == 9
  trustedStdlib := fun i => i == 4
  hasImmutSelfRef := fun _ => false
  hasRawPtrDeref := fun _ => false
  hasTransmute := fun _ => false
  getForwardEdges := fun i => if i = 3 then [.refined [3, 8] 0] else []
  subMir := fun _ => .ok 0
  instanceMir := fun i => i
  localDeclsLen := fun _ => 1
  argsBySpan := fun _ _ => []
  transitionFn := fun pil _ _ _ => pil

/-- Transition environment for witnesses: nothing is a constructor or a
closure, and the oracle returns a fixed answer (to show it is not
consulted). -/
def transitionCtxPlain : TransitionCtx where
  isConstructor := fun _ => false
  isClosure := fun _ => false
  numArgs := fun _ => 0
  oracle := fun _ _ _ => [9]

/-- Pointwise containment of usage graphs: every edge of the first is an
edge of the second (the append-only order). -/
def UGle (g g' : UsageGraph) : Prop :=
  (∀ m n, n ∈ g.forward m → n ∈ g'.forward m) ∧
  (∀ m n, n ∈ g.backward m → n ∈ g'.backward m)

/-- Evolution order of analyzer states: the audit-record vectors only grow
at the end and the call stack is restored. -/
def AnalyzerExtends (st st' : AnalyzerState) : Prop :=
  (∃ p, st'.passingCalls = st.passingCalls ++ p) ∧
  (∃ f, st'.failingCalls = st.failingCalls ++ f) ∧
  st'.stack = st.stack

/-- Agreement of two analyzer environments on everything the
allowlist/trusted-stdlib rules read (the heuristics, the graph and the
bodies may differ). -/
def AnalyzerCtx.AgreesOnTrust (ctx ctx' : AnalyzerCtx) : Prop :=
  ctx'.allowlist = ctx.allowlist ∧
  ctx'.trustedStdlib = ctx.trustedStdlib ∧
  ctx'.hasImmutSelfRef = ctx.hasImmutSelfRef

/-! ## Lemmas about the collector -/

theorem UGle_refl (g : UsageGraph) : UGle g g :=
  ⟨fun _ _ h => h, fun _ _ h => h⟩

theorem UGle_trans {g₁ g₂ g₃ : UsageGraph} (h₁ : UGle g₁ g₂)
    (h₂ : UGle g₂ g₃) : UGle g₁ g₃ :=
  ⟨fun m n h => h₂.1 m n (h₁.1 m n h), fun m n h => h₂.2 m n (h₁.2 m n h)⟩

theorem mem_insertNode {n x : Node} {l : List Node} :
    n ∈ insertNode x l ↔ n = x ∨ n ∈ l := by
  unfold insertNode
  split
  · rename_i hx
    constructor
    · exact Or.inr
    · rintro (rfl | h₂)
      · exact hx
      · exact h₂
  · simp [List.mem_cons]

theorem foldl_insertNode_mem (l : List Node) (acc : List Node) (n : Node) :
    n ∈ l.foldl (fun a u => insertNode u a) acc ↔ n ∈ acc ∨ n ∈ l := by
  induction l generalizing acc with
  | nil => simp
  | cons u rest ih =>
      rw [List.foldl_cons, ih]
      rw [mem_insertNode]
      simp only [List.mem_cons]
      tauto

theorem backFold_forward (used : List Node) (user : Node) :
    ∀ g : UsageGraph,
      (used.foldl
        (fun acc usedItem =>
          { acc with
            backward := updateMap acc.backward usedItem.item
              (insertNode user) })
        g).forward = g.forward := by
  induction used with
  | nil => intro g; rfl
  | cons u rest ih => intro g; rw [List.foldl_cons, ih]

theorem backFold_backward_mem (used : List Node) (user : Node) :
    ∀ (g : UsageGraph) (m : MonoItem) (n : Node),
      n ∈ (used.foldl
        (fun acc usedItem =>
          { acc with
            backward := updateMap acc.backward usedItem.item
              (insertNode user) })
        g).backward m ↔
      n ∈ g.backward m ∨ (n = user ∧ ∃ u ∈ used, u.item = m) := by
  induction used with
  | nil => simp
  | cons u rest ih =>
      intro g m n
      have hstep : ∀ (g₀ : UsageGraph) (m₀ : MonoItem) (n₀ : Node),
          n₀ ∈ (updateMap g₀.backward u.item (insertNode user)) m₀ ↔
            n₀ ∈ g₀.backward m₀ ∨ (n₀ = user ∧ u.item = m₀) := by
        intro g₀ m₀ n₀
        unfold updateMap
        by_cases hm : m₀ = u.item
        · subst hm
          simp [mem_insertNode]
          tauto
        · rw [if_neg hm]
          constructor
          · exact Or.inl
          · rintro (h | ⟨rfl, h⟩)
            · exact h
            · exact absurd h.symm hm
      rw [List.foldl_cons, ih]
      constructor
      · rintro (h | ⟨rfl, v, hv, hvm⟩)
        · rw [hstep] at h
          rcases h with h | ⟨rfl, hm⟩
          · exact Or.inl h
          · exact Or.inr ⟨rfl, u, List.mem_cons_self u rest, hm⟩
        · exact Or.inr ⟨rfl, v, List.mem_cons_of_mem u hv, hvm⟩
      · rintro (h | ⟨rfl, v, hv, hvm⟩)
        · exact Or.inl ((hstep g m n).mpr (Or.inl h))
        · rcases List.mem_cons.mp hv with rfl | hv₂
          · exact Or.inl ((hstep g m n).mpr (Or.inr ⟨rfl, hvm⟩))
          · exact Or.inr ⟨rfl, v, hv₂, hvm⟩

theorem recordUsed_forward_mem (g : UsageGraph) (user : Node)
    (used : List Node) (m : MonoItem) (n : Node) :
    n ∈ (g.recordUsed user used).forward m ↔
      n ∈ g.forward m ∨ (m = user.item ∧ n ∈ used) := by
  unfold UsageGraph.recordUsed
  simp only [updateMap]
  rw [backFold_forward]
  by_cases hm : m = user.item
  · rw [if_pos hm, foldl_insertNode_mem]
    tauto
  · rw [if_neg hm]
    tauto

theorem recordUsed_backward_mem (g : UsageGraph) (user : Node)
    (used : List Node) (m : MonoItem) (n : Node) :
    n ∈ (g.recordUsed user used).backward m ↔
      n ∈ g.backward m ∨ (n = user ∧ ∃ u ∈ used, u.item = m) := by
  unfold UsageGraph.recordUsed
  exact backFold_backward_mem used user g m n

theorem recordUsed_le (g : UsageGraph) (user : Node) (used : List Node) :
    UGle g (g.recordUsed user used) := by
  constructor
  · intro m n h
    rw [recordUsed_forward_mem]
    exact Or.inl h
  · intro m n h
    rw [recordUsed_backward_mem]
    exact Or.inl h

theorem recordUsed_symm {g : UsageGraph} (h : g.Symm) (user : Node)
    (used : List Node) : (g.recordUsed user used).Symm := by
  intro a b
  unfold UsageGraph.forwardEdge UsageGraph.backwardEdge
  constructor
  · rintro ⟨n, hn, hitem⟩
    rw [recordUsed_forward_mem] at hn
    rcases hn with hn | ⟨rfl, hn⟩
    · obtain ⟨n₁, hn₁, hitem₁⟩ := (h a b).mp ⟨n, hn, hitem⟩
      refine ⟨n₁, ?_, hitem₁⟩
      rw [recordUsed_backward_mem]
      exact Or.inl hn₁
    · refine ⟨user, ?_, rfl⟩
      rw [recordUsed_backward_mem]
      exact Or.inr ⟨rfl, n, hn, hitem⟩
  · rintro ⟨n, hn, hitem⟩
    rw [recordUsed_backward_mem] at hn
    rcases hn with hn | ⟨rfl, u, hu, hum⟩
    · obtain ⟨n₁, hn₁, hitem₁⟩ := (h a b).mpr ⟨n, hn, hitem⟩
      refine ⟨n₁, ?_, hitem₁⟩
      rw [recordUsed_forward_mem]
      exact Or.inl hn₁
    · refine ⟨u, ?_, hum⟩
      rw [recordUsed_forward_mem]
      exact Or.inr ⟨hitem.symm, hu⟩

theorem collectItemsRec_inv (ctx : CollectCtx) :
    ∀ (fuel : Nat) (startingItem : Node) (visited : List Node)
      (g : UsageGraph),
      (g.Symm → (collectItemsRec ctx fuel startingItem visited g).2.Symm) ∧
      UGle g (collectItemsRec ctx fuel startingItem visited g).2 := by
  intro fuel
  induction fuel with
  | zero =>
      intro s v g
      exact ⟨fun h => h, UGle_refl g⟩
  | succ fuel ih =>
      intro s v g
      have hfold : ∀ (l : List Node) (acc : List Node × UsageGraph),
          (acc.2.Symm →
            (l.foldl
              (fun acc usedItem =>
                collectItemsRec ctx fuel usedItem acc.1 acc.2) acc).2.Symm) ∧
          UGle acc.2
            (l.foldl
              (fun acc usedItem =>
                collectItemsRec ctx fuel usedItem acc.1 acc.2) acc).2 := by
        intro l
        induction l with
        | nil => intro acc; exact ⟨fun h => h, UGle_refl _⟩
        | cons u rest ihl =>
            intro acc
            rw [List.foldl_cons]
            obtain ⟨hs₁, hle₁⟩ := ih u acc.1 acc.2
            obtain ⟨hs₂, hle₂⟩ := ihl (collectItemsRec ctx fuel u acc.1 acc.2)
            exact ⟨fun h => hs₂ (hs₁ h), UGle_trans hle₁ hle₂⟩
      simp only [collectItemsRec]
      by_cases hv : s ∈ v
      · rw [if_pos hv]
        exact ⟨fun h => h, UGle_refl g⟩
      · rw [if_neg hv]
        by_cases hf : ctx.isForeign s.item
        · rw [if_pos hf]
          exact ⟨fun h => h, UGle_refl g⟩
        · rw [if_neg hf]
          obtain ⟨hs, hle⟩ :=
            hfold (ctx.usedItems s) (s :: v, g.recordUsed s (ctx.usedItems s))
          exact ⟨fun h => hs (recordUsed_symm h s (ctx.usedItems s)),
            UGle_trans (recordUsed_le g s (ctx.usedItems s)) hle⟩

theorem emptyGraph_symm : UsageGraph.empty.Symm := by
  intro a b
  simp [UsageGraph.forwardEdge, UsageGraph.backwardEdge, UsageGraph.empty]

theorem collect_visited_sub (ctx : CollectCtx) :
    ∀ (fuel : Nat) (startingItem : Node) (visited : List Node)
      (g : UsageGraph),
      visited ⊆ (collectItemsRec ctx fuel startingItem visited g).1 := by
  intro fuel
  induction fuel with
  | zero => intro s v g x hx; exact hx
  | succ fuel ih =>
      intro s v g
      have hfold : ∀ (l : List Node) (acc : List Node × UsageGraph),
          acc.1 ⊆
            (l.foldl
              (fun acc usedItem =>
                collectItemsRec ctx fuel usedItem acc.1 acc.2) acc).1 := by
        intro l
        induction l with
        | nil => intro acc x hx; exact hx
        | cons u rest ihl =>
            intro acc
            rw [List.foldl_cons]
            exact fun x hx =>
              ihl (collectItemsRec ctx fuel u acc.1 acc.2)
                (ih u acc.1 acc.2 hx)
      simp only [collectItemsRec]
      by_cases hv : s ∈ v
      · rw [if_pos hv]; exact fun x hx => hx
      · rw [if_neg hv]
        by_cases hf : ctx.isForeign s.item
        · rw [if_pos hf]
          exact fun x hx => List.mem_cons_of_mem s hx
        · rw [if_neg hf]
          exact fun x hx =>
            hfold (ctx.usedItems s)
              (s :: v, g.recordUsed s (ctx.usedItems s))
              (List.mem_cons_of_mem s hx)

theorem collect_fold_visited_sub (ctx : CollectCtx) (fuel : Nat) :
    ∀ (l : List Node) (acc : List Node × UsageGraph),
      acc.1 ⊆
        (l.foldl
          (fun acc usedItem =>
            collectItemsRec ctx fuel usedItem acc.1 acc.2) acc).1 := by
  intro l
  induction l with
  | nil => intro acc x hx; exact hx
  | cons u rest ihl =>
      intro acc
      rw [List.foldl_cons]
      exact fun x hx =>
        ihl (collectItemsRec ctx fuel u acc.1 acc.2)
          (collect_visited_sub ctx fuel u acc.1 acc.2 hx)

/-- C7: at every point during and after collection the usage graph is
symmetric and append-only — starting from any symmetric graph, the graph
produced by `collect_items_rec` is symmetric (every forward edge between
two units has a matching backward edge and vice versa), and it contains
every edge of the starting graph (edges are only ever added, never removed
or rewritten). -/
theorem collector_graph_symmetric_append_only :
    ∀ (ctx : CollectCtx) (fuel : Nat) (startingItem : Node)
      (visited : List Node) (g : UsageGraph),
      g.Symm →
      (collectItemsRec ctx fuel startingItem visited g).2.Symm ∧
        UGle g (collectItemsRec ctx fuel startingItem visited g).2 :=
  fun ctx fuel s v g h =>
    ⟨(collectItemsRec_inv ctx fuel s v g).1 h,
     (collectItemsRec_inv ctx fuel s v g).2⟩

/-- Witness for C7: the invariant instantiated on a concrete collection run
from the empty (symmetric) graph. -/
theorem collector_graph_symmetric_append_only_witness :
    UsageGraph.empty.Symm ∧
    ((collectItemsRec collectCtxTwoUsages 4 ⟨.fn 0, .root⟩ []
        UsageGraph.empty).2.Symm ∧
      UGle UsageGraph.empty
        (collectItemsRec collectCtxTwoUsages 4 ⟨.fn 0, .root⟩ []
          UsageGraph.empty).2) :=
  ⟨emptyGraph_symm,
   collector_graph_symmetric_append_only collectCtxTwoUsages 4
     ⟨.fn 0, .root⟩ [] UsageGraph.empty emptyGraph_symm⟩

/-- C8 counterexample: the collector's visited set is keyed by the pair
(unit, usage kind), not by the unit alone.  In the environment
`collectCtxTwoUsages`, unit 1 is discovered under two different usage kinds
and is expanded twice: the visited set holds two distinct nodes with the
same unit, and the forward edges of unit 1 contain the outputs of both
expansions (the edge to unit 3 can only come from the second expansion). -/
theorem collector_visited_unit_keyed_counterexample :
    (⟨.fn 1, .call⟩ : Node) ∈ (collectFrom collectCtxTwoUsages 10 (.fn 0)).1 ∧
    (⟨.fn 1, .fnPtr 0⟩ : Node) ∈
      (collectFrom collectCtxTwoUsages 10 (.fn 0)).1 ∧
    (⟨.fn 2, .call⟩ : Node) ∈
      (collectFrom collectCtxTwoUsages 10 (.fn 0)).2.forward (.fn 1) ∧
    (⟨.fn 3, .call⟩ : Node) ∈
      (collectFrom collectCtxTwoUsages 10 (.fn 0)).2.forward (.fn 1) := by
  decide

/-- C8 amended: the collector's visited set is keyed by the pair (unit,
usage kind): a node already in the visited set is never expanded again (the
state is returned unchanged), while the same unit rediscovered under a
different usage kind is expanded anew; the worklist is seeded with
`(root, Root)`, which is the first node to enter the visited set. -/
theorem collector_visited_pair_keyed_and_seeded :
    (∀ (ctx : CollectCtx) (fuel : Nat) (startingItem : Node)
      (visited : List Node) (g : UsageGraph),
      startingItem ∈ visited →
      collectItemsRec ctx fuel startingItem visited g = (visited, g)) ∧
    (∀ (ctx : CollectCtx) (fuel : Nat) (root : MonoItem),
      (⟨root, .root⟩ : Node) ∈ (collectFrom ctx (fuel + 1) root).1) := by
  constructor
  · intro ctx fuel s v g hv
    cases fuel with
    | zero => rfl
    | succ fuel => simp only [collectItemsRec, if_pos hv]
  · intro ctx fuel root
    unfold collectFrom
    simp only [collectItemsRec, if_neg (List.not_mem_nil _)]
    by_cases hf : ctx.isForeign (⟨root, .root⟩ : Node).item
    · rw [if_pos hf]
      exact List.mem_cons_self _ _
    · rw [if_neg hf]
      exact collect_fold_visited_sub ctx fuel _ _
        (List.mem_cons_self _ _)

/-- Lemma: picking out the method entries of a dispatch table yields as
many instances as there are method entries. -/
theorem filterMap_method_length (l : List MVtblEntry) :
    (l.filterMap (fun e => match e with
      | .method inst => some inst
      | _ => none)).length = l.countP MVtblEntry.isMethod := by
  induction l with
  | nil => rfl
  | cons e rest ih =>
      cases e <;>
        simp [List.filterMap_cons, List.countP_cons, MVtblEntry.isMethod, ih]

/-- Lemma: a vtable method node always carries a dispatch-slot usage. -/
theorem vtableMethodNode_isDispatchSlot (ctx : CastCtx)
    (principal inst : Nat) :
    (vtableMethodNode ctx principal inst).usage.isDispatchSlot = true := by
  unfold vtableMethodNode
  by_cases h : ctx.isFnTrait (ctx.methodTraitDefId inst principal) <;>
    simp [h, Usage.isDispatchSlot]

/-- Lemma: a vtable method node is never the destructor entry. -/
theorem vtableMethodNode_ne_indirectDrop (ctx : CastCtx)
    (principal inst : Nat) :
    ((vtableMethodNode ctx principal inst).usage == Usage.indirectDrop) =
      false := by
  unfold vtableMethodNode
  by_cases h : ctx.isFnTrait (ctx.methodTraitDefId inst principal) <;>
    simp [h]

/-- Lemma: matching ADT wrappers around both sides of an unsizing coercion
are peeled away layer by layer without changing the resulting type pair. -/
theorem wrapAdt_findVtableTypes (i : Nat) :
    ∀ (k : Nat) (sourceTy targetTy : MTy),
      findVtableTypesForUnsizing (wrapAdt i k sourceTy)
        (wrapAdt i k targetTy) =
      findVtableTypesForUnsizing sourceTy targetTy := by
  intro k
  induction k with
  | zero => intro s t; rfl
  | succ k ih =>
      intro s t
      show findVtableTypesForUnsizing (.adt i (wrapAdt i k s))
        (.adt i (wrapAdt i k t)) = _
      rw [findVtableTypesForUnsizing, if_pos rfl, ih]

/-- C6: for an unsize/`dyn*` cast whose peeled (source, target) pair turns a
non-interface source into an interface-typed target, the collector emits one
dispatch-table-slot edge per method entry the dispatch table materializes
(the vtable-entries query flattens super-interface methods into the entry
list; metadata, vacant and super-trait-pointer entries yield nothing), plus
exactly one `IndirectDrop` edge for the destructor entry of the concrete
source type; the peeling removes matching struct-field layers one at a
time. -/
theorem unsize_cast_slot_per_method_plus_indirect_drop :
    ∀ (ctx : CastCtx) (sourceTy targetTy s : MTy) (p : Option Nat)
      (star : Bool),
      findVtableTypesForUnsizing sourceTy targetTy =
        some (s, .dynamic p star) →
      (((MTy.dynamic p star).isTrait && !s.isTrait) ||
        ((MTy.dynamic p star).isDynStar && !s.isDynStar)) = true →
      ∃ out, visitUnsizeCast ctx sourceTy targetTy = some out ∧
        out.countP (fun n => n.usage.isDispatchSlot) =
          (p.elim 0 (fun principal =>
            (ctx.vtableEntries principal s).countP MVtblEntry.isMethod)) ∧
        out.countP (fun n => n.usage == Usage.indirectDrop) = 1 ∧
        (⟨.fn (ctx.dropGlueInstance s), .indirectDrop⟩ : Node) ∈ out ∧
        (∀ (principal inst : Nat), p = some principal →
          MVtblEntry.method inst ∈ ctx.vtableEntries principal s →
          vtableMethodNode ctx principal inst ∈ out) ∧
        out.length =
          (p.elim 0 (fun principal =>
            (ctx.vtableEntries principal s).countP MVtblEntry.isMethod)) + 1 ∧
        (∀ (i k : Nat),
          findVtableTypesForUnsizing (wrapAdt i k sourceTy)
            (wrapAdt i k targetTy) =
          findVtableTypesForUnsizing sourceTy targetTy) := by
  intro ctx sourceTy targetTy s p star hfind hguard
  refine ⟨createMonoItemsForVtableMethods ctx (.dynamic p star) s, ?_, ?_⟩
  · unfold visitUnsizeCast
    rw [hfind]
    show (if (((MTy.dynamic p star).isTrait && !s.isTrait) ||
          ((MTy.dynamic p star).isDynStar && !s.isDynStar)) = true then
        some (createMonoItemsForVtableMethods ctx (.dynamic p star) s)
      else some []) =
      some (createMonoItemsForVtableMethods ctx (.dynamic p star) s)
    rw [if_pos hguard]
  · unfold createMonoItemsForVtableMethods
    cases p with
    | none =>
        refine ⟨?_, ?_, ?_, ?_, ?_, ?_⟩
        · simp [Usage.isDispatchSlot]
        · simp
        · simp
        · intro principal inst hp _; exact absurd hp (by simp)
        · simp
        · intro i k; exact wrapAdt_findVtableTypes i k sourceTy targetTy
    | some principal =>
        simp only [Option.elim]
        refine ⟨?_, ?_, ?_, ?_, ?_, ?_⟩
        · rw [List.countP_append, List.countP_map]
          have hall : ((ctx.vtableEntries principal s).filterMap
              (fun e => match e with
                | .method inst => some inst
                | _ => none)).countP
              ((fun n => n.usage.isDispatchSlot) ∘
                vtableMethodNode ctx principal) =
              ((ctx.vtableEntries principal s).filterMap
                (fun e => match e with
                  | .method inst => some inst
                  | _ => none)).length := by
            rw [List.countP_eq_length]
            intro a _
            exact vtableMethodNode_isDispatchSlot ctx principal a
          rw [hall, filterMap_method_length]
          simp [Usage.isDispatchSlot]
        · rw [List.countP_append, List.countP_map]
          have hnone : ((ctx.vtableEntries principal s).filterMap
              (fun e => match e with
                | .method inst => some inst
                | _ => none)).countP
              ((fun n => n.usage == Usage.indirectDrop) ∘
                vtableMethodNode ctx principal) = 0 := by
            rw [List.countP_eq_zero]
            intro a _
            simp only [Function.comp]
            rw [vtableMethodNode_ne_indirectDrop]
            exact Bool.false_ne_true
          rw [hnone]
          simp
        · exact List.mem_append_right _ (List.mem_singleton_self _)
        · intro principal₁ inst hp hm
          obtain rfl : principal = principal₁ := by
            injection hp
          refine List.mem_append_left _ ?_
          refine List.mem_map_of_mem (vtableMethodNode ctx principal) ?_
          rw [List.mem_filterMap]
          exact ⟨.method inst, hm, rfl⟩
        · rw [List.length_append, List.length_map, filterMap_method_length]
          simp
        · intro i k; exact wrapAdt_findVtableTypes i k sourceTy targetTy

/-- Witness for C6: the cast environment `castCtxDiamond` with source type
`&Adt1(prim 2)` and target type `&dyn Trait0`, whose dispatch table has two
method entries (one inherited from super-trait 9). -/
theorem unsize_cast_slot_per_method_plus_indirect_drop_witness :
    ∃ out, visitUnsizeCast castCtxDiamond (.ref (.adt 1 (.prim 2)))
        (.ref (.dynamic (some 0) false)) = some out ∧
      out.countP (fun n => n.usage.isDispatchSlot) =
        ((some 0 : Option Nat).elim 0 (fun principal =>
          (castCtxDiamond.vtableEntries principal
            (.adt 1 (.prim 2))).countP MVtblEntry.isMethod)) ∧
      out.countP (fun n => n.usage == Usage.indirectDrop) = 1 ∧
      (⟨.fn (castCtxDiamond.dropGlueInstance (.adt 1 (.prim 2))),
        .indirectDrop⟩ : Node) ∈ out ∧
      (∀ (principal inst : Nat), (some 0 : Option Nat) = some principal →
        MVtblEntry.method inst ∈
          castCtxDiamond.vtableEntries principal (.adt 1 (.prim 2)) →
        vtableMethodNode castCtxDiamond principal inst ∈ out) ∧
      out.length =
        ((some 0 : Option Nat).elim 0 (fun principal =>
          (castCtxDiamond.vtableEntries principal
            (.adt 1 (.prim 2))).countP MVtblEntry.isMethod)) + 1 ∧
      (∀ (i k : Nat),
        findVtableTypesForUnsizing (wrapAdt i k (.ref (.adt 1 (.prim 2))))
          (wrapAdt i k (.ref (.dynamic (some 0) false))) =
        findVtableTypesForUnsizing (.ref (.adt 1 (.prim 2)))
          (.ref (.dynamic (some 0) false))) :=
  unsize_cast_slot_per_method_plus_indirect_drop castCtxDiamond
    (.ref (.adt 1 (.prim 2))) (.ref (.dynamic (some 0) false))
    (.adt 1 (.prim 2)) (some 0) false (by decide) (by decide)

/-- Witness for C8's amended theorem: a concrete already-visited node is
not re-expanded, and a concrete run's visited set holds the root node. -/
theorem collector_visited_pair_keyed_and_seeded_witness :
    ((⟨.fn 0, .root⟩ : Node) ∈ [(⟨.fn 0, .root⟩ : Node)] ∧
      collectItemsRec collectCtxTwoUsages 7 ⟨.fn 0, .root⟩
        [⟨.fn 0, .root⟩] UsageGraph.empty =
        ([⟨.fn 0, .root⟩], UsageGraph.empty)) ∧
    (⟨.fn 0, .root⟩ : Node) ∈ (collectFrom collectCtxTwoUsages 3 (.fn 0)).1 :=
  ⟨⟨List.mem_cons_self _ _,
    collector_visited_pair_keyed_and_seeded.1 collectCtxTwoUsages 7
      ⟨.fn 0, .root⟩ [⟨.fn 0, .root⟩] UsageGraph.empty
      (List.mem_cons_self _ _)⟩,
   collector_visited_pair_keyed_and_seeded.2 collectCtxTwoUsages 2 (.fn 0)⟩

/-- C1 counterexample: a successful refiner run in which a function-pointer
call site finds no candidates still records an edge — the refined usage
graph of the run holds a `Refined` node with an empty candidate set (the
warning is logged as well), contradicting "no edge / no stored `Refined`
node has an empty candidate set". -/
theorem refiner_empty_candidates_counterexample :
    ∃ st, refineFrom refCtxNoCandidates 1 0 = some st ∧
      RefinedNode.refined [] 99 ∈ st.graph.forward 0 ∧
      (5 : Nat) ∈ st.warnings :=
  ⟨_, rfl, by decide, by decide⟩

/-- C1 amended: a call site whose candidate search returns no matching
units produces a logged warning and an edge whose `Refined` node has an
empty candidate set; the run is not aborted and no callee is entered
through that node (the refinement state changes only by the new edge and
the warning).  This holds for both kinds of ambiguous call site: a raw
function-pointer callee (empty `candidates_for_fn_ptr`, warning keyed by
the ambiguous signature) and a virtual/interface-dispatched callee (empty
`candidates_for_virtual`, warning keyed by the virtual method). -/
theorem refiner_empty_candidates_warn_and_keep_edge :
    ∀ (ctx : RefCtx) (fuel currentInstance span : Nat)
      (st : RefinerState),
      (∀ sig : Nat,
        candidatesForFnPtr ctx sig = [] →
        RefinedNode.refined [] span ∉ st.graph.forward currentInstance →
        refineRec ctx (fuel + 1) currentInstance ⟨.fnPtr sig, span⟩ st =
          some ⟨st.graph.addEdge currentInstance (.refined [] span),
                st.warnings ++ [sig]⟩) ∧
      (∀ (inst methodDefId args : Nat),
        candidatesForVirtual ctx methodDefId args = [] →
        RefinedNode.refined [] span ∉ st.graph.forward currentInstance →
        refineRec ctx (fuel + 1) currentInstance
            ⟨.fnDef inst (some (methodDefId, args)), span⟩ st =
          some ⟨st.graph.addEdge currentInstance (.refined [] span),
                st.warnings ++ [methodDefId]⟩) := by
  intro ctx fuel currentInstance span st
  constructor
  · intro sig hcands hnotin
    simp only [refineRec, hcands, List.isEmpty_nil, if_true]
    rw [if_neg hnotin]
    rfl
  · intro inst methodDefId args hcands hnotin
    simp only [refineRec, hcands, List.isEmpty_nil, if_true]
    rw [if_neg hnotin]
    rfl

/-- Witness for C1's amended theorem at the concrete environment
`refCtxNoCandidates`: one function-pointer call site and one
virtual-dispatch call site, both with an empty candidate search. -/
theorem refiner_empty_candidates_warn_and_keep_edge_witness :
    (refineRec refCtxNoCandidates 1 0 ⟨.fnPtr 5, 99⟩
        ⟨RefinedUsageGraph.empty, []⟩ =
      some ⟨RefinedUsageGraph.empty.addEdge 0 (.refined [] 99),
            [] ++ [5]⟩) ∧
    (refineRec refCtxNoCandidates 1 0 ⟨.fnDef 2 (some (4, 0)), 99⟩
        ⟨RefinedUsageGraph.empty, []⟩ =
      some ⟨RefinedUsageGraph.empty.addEdge 0 (.refined [] 99),
            [] ++ [4]⟩) :=
  ⟨(refiner_empty_candidates_warn_and_keep_edge refCtxNoCandidates 0 0 99
      ⟨RefinedUsageGraph.empty, []⟩).1 5 (by decide) (by decide),
   (refiner_empty_candidates_warn_and_keep_edge refCtxNoCandidates 0 0 99
      ⟨RefinedUsageGraph.empty, []⟩).2 2 4 0 (by decide) (by decide)⟩

/-- C2 counterexample: with a candidate pool holding a single
function-like-interface (`FnTraitItem`) entry of a matching signature, the
code's candidate search for a raw function-pointer callee returns nothing,
while the set described by the specification (all four signature-carrying
kinds) contains that unit. -/
theorem fn_ptr_candidates_counterexample :
    candidatesForFnPtr refCtxFnTraitPool 5 = [] ∧
    specFnPtrCandidates refCtxFnTraitPool 5 = [7] := by
  decide

/-- C2 amended: for a raw function-pointer callee the candidate set is
exactly the indirectly collected units of the three signature-carrying
kinds `StaticFn`, `FnPtr` and `StaticClosureShim` whose recorded signature
matches under the subtyping-tolerant comparison; function-like-interface
(`FnTraitItem`) entries are instead matched — by exact signature equality
against the interface method's signature — only by the fn-trait dispatch
search. -/
theorem fn_ptr_candidates_three_kinds :
    ∀ (ctx : RefCtx) (sig inst : Nat),
      (inst ∈ candidatesForFnPtr ctx sig ↔
        ∃ n ∈ ctx.pool, n.isIndirect = true ∧ n.expectInstance = inst ∧
          ∃ s, (n.usage = .staticFn s ∨ n.usage = .fnPtr s ∨
            n.usage = .staticClosureShim s) ∧ ctx.sigEq sig s = true) ∧
      ∀ (methodDefId args : Nat),
        (inst ∈ candidatesForFnTraitCall ctx methodDefId args ↔
          ∃ n ∈ ctx.pool, n.isIndirect = true ∧ n.expectInstance = inst ∧
            n.usage = .fnTraitItem (ctx.fnTraitMethodSig methodDefId args)) := by
  intro ctx sig inst
  constructor
  · unfold candidatesForFnPtr RefCtx.reachableIndirect
    rw [List.mem_filterMap]
    constructor
    · rintro ⟨n, hn, hmatch⟩
      rw [List.mem_filter] at hn
      obtain ⟨hpool, hind⟩ := hn
      refine ⟨n, hpool, hind, ?_⟩
      cases hu : n.usage <;> rw [hu] at hmatch
      case staticFn s₀ =>
        have hm : (if ctx.sigEq sig s₀ = true then some n.expectInstance
            else none) = some inst := hmatch
        by_cases hs : ctx.sigEq sig s₀ = true
        · rw [if_pos hs] at hm
          exact ⟨Option.some.inj hm, s₀, Or.inl rfl, hs⟩
        · rw [if_neg hs] at hm
          exact Option.noConfusion hm
      case fnPtr s₀ =>
        have hm : (if ctx.sigEq sig s₀ = true then some n.expectInstance
            else none) = some inst := hmatch
        by_cases hs : ctx.sigEq sig s₀ = true
        · rw [if_pos hs] at hm
          exact ⟨Option.some.inj hm, s₀, Or.inr (Or.inl rfl), hs⟩
        · rw [if_neg hs] at hm
          exact Option.noConfusion hm
      case staticClosureShim s₀ =>
        have hm : (if ctx.sigEq sig s₀ = true then some n.expectInstance
            else none) = some inst := hmatch
        by_cases hs : ctx.sigEq sig s₀ = true
        · rw [if_pos hs] at hm
          exact ⟨Option.some.inj hm, s₀, Or.inr (Or.inr rfl), hs⟩
        · rw [if_neg hs] at hm
          exact Option.noConfusion hm
      all_goals exact Option.noConfusion hmatch
    · rintro ⟨n, hpool, hind, hexp, s₀, hu, hsig⟩
      refine ⟨n, List.mem_filter.mpr ⟨hpool, hind⟩, ?_⟩
      rcases hu with hu | hu | hu <;> rw [hu]
      · show (if ctx.sigEq sig s₀ = true then some n.expectInstance
            else none) = some inst
        rw [if_pos hsig, hexp]
      · show (if ctx.sigEq sig s₀ = true then some n.expectInstance
            else none) = some inst
        rw [if_pos hsig, hexp]
      · show (if ctx.sigEq sig s₀ = true then some n.expectInstance
            else none) = some inst
        rw [if_pos hsig, hexp]
  · intro methodDefId args
    unfold candidatesForFnTraitCall RefCtx.reachableIndirect
    rw [List.mem_map]
    constructor
    · rintro ⟨n, hn, hexp⟩
      rw [List.mem_filter, List.mem_filter] at hn
      obtain ⟨⟨hpool, hind⟩, hmatch⟩ := hn
      refine ⟨n, hpool, hind, hexp, ?_⟩
      cases hu : n.usage <;> rw [hu] at hmatch
      case fnTraitItem s₀ =>
        have hm : decide (ctx.fnTraitMethodSig methodDefId args = s₀) =
            true := hmatch
        rw [of_decide_eq_true hm]
      all_goals exact Bool.noConfusion hmatch
    · rintro ⟨n, hpool, hind, hexp, hu⟩
      refine ⟨n, ?_, hexp⟩
      rw [List.mem_filter, List.mem_filter]
      refine ⟨⟨hpool, hind⟩, ?_⟩
      rw [hu]
      show decide (ctx.fnTraitMethodSig methodDefId args =
        ctx.fnTraitMethodSig methodDefId args) = true
      exact decide_eq_true rfl

/-! ## Lemmas about the analyzer -/

theorem runChildren_all_on_stack
    (handle : AnalyzerState → Nat → RefinedNode → Bool × AnalyzerState) :
    ∀ (cs : List Nat) (node : RefinedNode) (st : AnalyzerState),
      (∀ c ∈ cs, c ∈ st.stack) →
      runChildren handle cs node st = (cs.map (fun _ => true), st) := by
  intro cs
  induction cs with
  | nil => intro node st _; rfl
  | cons c rest ih =>
      intro node st hstack
      simp only [runChildren, List.map_cons]
      rw [if_pos (hstack c (List.mem_cons_self c rest))]
      rw [ih node st (fun x hx => hstack x (List.mem_cons_of_mem c hx))]

theorem runNodes_all_on_stack
    (handle : AnalyzerState → Nat → RefinedNode → Bool × AnalyzerState) :
    ∀ (nodes : List RefinedNode) (st : AnalyzerState),
      (∀ n ∈ nodes, ∀ c ∈ n.instances, c ∈ st.stack) →
      runNodes handle nodes st = (true, st) := by
  intro nodes
  induction nodes with
  | nil => intro st _; rfl
  | cons node rest ih =>
      intro st hstack
      simp only [runNodes]
      rw [runChildren_all_on_stack handle node.instances node st
        (hstack node (List.mem_cons_self node rest))]
      have hall : ((List.map (fun _ => true) node.instances).all
          fun b => b) = true := by simp
      rw [hall, if_pos rfl]
      exact ih st (fun n hn => hstack n (List.mem_cons_of_mem node hn))

/-- C3: the analyzer's per-unit evaluation applies its first three rules in
order — an allowlisted unit passes unconditionally, a unit with an empty
important-locals set passes unconditionally, and a unit with no retrievable
body fails — in each case appending the corresponding audit record with
both heuristic flags `false` (the heuristics are not consulted) and
touching nothing else of the state. -/
theorem analyzer_first_three_rules :
    ∀ (ctx : AnalyzerCtx) (fuel : Nat) (st : AnalyzerState) (item : Nat)
      (body : Option Nat) (il : List Nat),
      (ctx.allowlist item = true →
        analyzeItemF ctx fuel st item body il =
          (true, (st.pushDecision (item, true)).pushPassing
            ⟨item, il, false, true, false⟩)) ∧
      (ctx.allowlist item = false → il.isEmpty = true →
        analyzeItemF ctx fuel st item body il =
          (true, (st.pushDecision (item, true)).pushPassing
            ⟨item, il, false, false, false⟩)) ∧
      (ctx.allowlist item = false → il.isEmpty = false →
        analyzeItemF ctx fuel st item none il =
          (false, (st.pushDecision (item, false)).pushFailing
            ⟨item, il, false, false, false⟩)) := by
  intro ctx fuel st item body il
  refine ⟨?_, ?_, ?_⟩
  · intro ha
    simp only [analyzeItemF, analyzeItemCore, ha, if_true]
  · intro ha hil
    simp only [analyzeItemF, analyzeItemCore, ha, hil]
    rfl
  · intro ha hil
    simp only [analyzeItemF, analyzeItemCore, ha, hil]
    rfl

/-- Witness for C3: the three rules at concrete units of
`analyzerCtxSimple` (unit 9 allowlisted; unit 5 with no tainted locals;
unit 5 with tainted locals and no body). -/
theorem analyzer_first_three_rules_witness :
    (analyzerCtxSimple.allowlist 9 = true ∧
      analyzeItemF analyzerCtxSimple 1 ⟨[], [], [], []⟩ 9 none [2] =
        (true, ((⟨[], [], [], []⟩ : AnalyzerState).pushDecision
          (9, true)).pushPassing ⟨9, [2], false, true, false⟩)) ∧
    (analyzerCtxSimple.allowlist 5 = false ∧
      ([] : List Nat).isEmpty = true ∧
      analyzeItemF analyzerCtxSimple 1 ⟨[], [], [], []⟩ 5 (some 0) [] =
        (true, ((⟨[], [], [], []⟩ : AnalyzerState).pushDecision
          (5, true)).pushPassing ⟨5, [], false, false, false⟩)) ∧
    (analyzerCtxSimple.allowlist 5 = false ∧
      ([2] : List Nat).isEmpty = false ∧
      analyzeItemF analyzerCtxSimple 1 ⟨[], [], [], []⟩ 5 none [2] =
        (false, ((⟨[], [], [], []⟩ : AnalyzerState).pushDecision
          (5, false)).pushFailing ⟨5, [2], false, false, false⟩)) :=
  ⟨⟨by decide,
    (analyzer_first_three_rules analyzerCtxSimple 1 ⟨[], [], [], []⟩ 9
      none [2]).1 (by decide)⟩,
   ⟨by decide, by decide,
    (analyzer_first_three_rules analyzerCtxSimple 1 ⟨[], [], [], []⟩ 5
      (some 0) []).2.1 (by decide) (by decide)⟩,
   ⟨by decide, by decide,
    (analyzer_first_three_rules analyzerCtxSimple 1 ⟨[], [], [], []⟩ 5
      none [2]).2.2 (by decide) (by decide)⟩⟩

/-- C4: a candidate callee already on the active call stack is counted as a
passing callee without being re-analyzed — the inner candidate loop yields
`true` for it and leaves the state untouched; consequently a unit all of
whose dependent candidates are on the stack (any recursive or mutually
recursive cycle) passes with only its own audit record appended. -/
theorem analyzer_on_stack_callees_pass :
    (∀ (handle : AnalyzerState → Nat → RefinedNode →
        Bool × AnalyzerState) (cs : List Nat) (node : RefinedNode)
        (st : AnalyzerState),
      (∀ c ∈ cs, c ∈ st.stack) →
      runChildren handle cs node st = (cs.map (fun _ => true), st)) ∧
    (∀ (ctx : AnalyzerCtx) (fuel : Nat) (st : AnalyzerState)
        (item bodyId : Nat) (il : List Nat),
      ctx.allowlist item = false →
      il.isEmpty = false →
      (ctx.trustedStdlib item && !ctx.hasImmutSelfRef item) = false →
      ctx.hasRawPtrDeref item = false →
      ctx.hasTransmute item = false →
      (∀ n ∈ ctx.getForwardEdges item, ∀ c ∈ n.instances, c ∈ st.stack) →
      analyzeItemF ctx fuel st item (some bodyId) il =
        (true, (st.pushDecision (item, true)).pushPassing
          ⟨item, il, false, false, false⟩)) := by
  constructor
  · exact runChildren_all_on_stack
  · intro ctx fuel st item bodyId il ha hil htr hraw htm hstack
    simp only [analyzeItemF, analyzeItemCore, ha, hil, htr, hraw, htm]
    rw [runNodes_all_on_stack _ (ctx.getForwardEdges item) st hstack]
    rfl

/-- Witness for C4: in `analyzerCtxSimple`, unit 3 calls units 3 and 8
through one refined node; with both already on the stack the unit passes
and only its own record is appended. -/
theorem analyzer_on_stack_callees_pass_witness :
    runChildren (fun st _ _ => (false, st)) [3, 8] (.refined [3, 8] 0)
        ⟨[], [], [3, 8], []⟩ = ([true, true], ⟨[], [], [3, 8], []⟩) ∧
    analyzeItemF analyzerCtxSimple 2 ⟨[], [], [3, 8], []⟩ 3 (some 0) [1] =
      (true, ((⟨[], [], [3, 8], []⟩ : AnalyzerState).pushDecision
        (3, true)).pushPassing ⟨3, [1], false, false, false⟩) :=
  ⟨analyzer_on_stack_callees_pass.1 (fun st _ _ => (false, st)) [3, 8]
    (.refined [3, 8] 0) ⟨[], [], [3, 8], []⟩ (by decide),
   analyzer_on_stack_callees_pass.2 analyzerCtxSimple 2
    ⟨[], [], [3, 8], []⟩ 3 0 [1] (by decide) (by decide) (by decide)
    (by decide) (by decide) (by decide)⟩

/-- C5: a non-allowlisted unit with tainted locals and a retrievable body
passes unconditionally — for every environment agreeing on the trust
configuration, whatever its heuristics, graph and bodies — exactly when it
matches the trusted-stdlib list and has no immutably-referenced (interior-
mutable) self receiver. -/
theorem analyzer_trusted_stdlib_pass_iff :
    ∀ (ctx : AnalyzerCtx) (fuel item : Nat),
      ctx.allowlist item = false →
      ((∀ ctx' : AnalyzerCtx, ctx.AgreesOnTrust ctx' →
        ∀ (st : AnalyzerState) (bodyId : Nat) (il : List Nat),
          il.isEmpty = false →
          analyzeItemF ctx' fuel st item (some bodyId) il =
            (true, (st.pushDecision (item, true)).pushPassing
              ⟨item, il, ctx'.hasRawPtrDeref item, false,
                ctx'.hasTransmute item⟩)) ↔
        (ctx.trustedStdlib item = true ∧
          ctx.hasImmutSelfRef item = false)) := by
  intro ctx fuel item hallow
  constructor
  · intro hall
    by_cases hT : (ctx.trustedStdlib item && !ctx.hasImmutSelfRef item) =
        true
    · rw [Bool.and_eq_true] at hT
      have h₂ := hT.2
      simp only [Bool.not_eq_true'] at h₂
      exact ⟨hT.1, h₂⟩
    · exfalso
      have h := hall
        ⟨ctx.allowlist, ctx.trustedStdlib, ctx.hasImmutSelfRef,
         fun _ => true, ctx.hasTransmute, fun _ => [], ctx.subMir,
         ctx.instanceMir, ctx.localDeclsLen, ctx.argsBySpan,
         ctx.transitionFn⟩
        ⟨rfl, rfl, rfl⟩ ⟨[], [], [], []⟩ 0 [0] rfl
      simp only [analyzeItemF, analyzeItemCore, hallow, Bool.false_eq_true,
        if_false, List.isEmpty_cons, if_neg hT, runNodes, Bool.not_true,
        Bool.false_and] at h
      exact absurd (congrArg Prod.fst h) (by simp)
  · rintro ⟨htr, him⟩ ctx' hag st bodyId il hil
    obtain ⟨ha', ht', hi'⟩ := hag
    have htrusted : (ctx'.trustedStdlib item && !ctx'.hasImmutSelfRef item) =
        true := by
      rw [ht', hi', htr, him]
      rfl
    have hallow' : ctx'.allowlist item = false := by rw [ha', hallow]
    simp only [analyzeItemF, analyzeItemCore, hallow', Bool.false_eq_true,
      if_false, hil, htrusted, if_true]

/-- Witness for C5: unit 4 of `analyzerCtxSimple` is a trusted stdlib
member without an immutable self receiver; by the backward direction of the
iff it passes unconditionally, here instantiated at one agreeing
environment. -/
theorem analyzer_trusted_stdlib_pass_iff_witness :
    analyzeItemF analyzerCtxSimple 1 ⟨[], [], [], []⟩ 4 (some 0) [2] =
      (true, ((⟨[], [], [], []⟩ : AnalyzerState).pushDecision
        (4, true)).pushPassing
        ⟨4, [2], analyzerCtxSimple.hasRawPtrDeref 4, false,
          analyzerCtxSimple.hasTransmute 4⟩) :=
  ((analyzer_trusted_stdlib_pass_iff analyzerCtxSimple 1 4
      (by decide)).mpr ⟨by decide, by decide⟩) analyzerCtxSimple
    ⟨rfl, rfl, rfl⟩ ⟨[], [], [], []⟩ 0 [2] (by decide)

theorem analyzerExtends_refl (st : AnalyzerState) : AnalyzerExtends st st :=
  ⟨⟨[], (List.append_nil _).symm⟩, ⟨[], (List.append_nil _).symm⟩, rfl⟩

theorem analyzerExtends_trans {a b c : AnalyzerState}
    (h₁ : AnalyzerExtends a b) (h₂ : AnalyzerExtends b c) :
    AnalyzerExtends a c := by
  obtain ⟨⟨p₁, hp₁⟩, ⟨f₁, hf₁⟩, hs₁⟩ := h₁
  obtain ⟨⟨p₂, hp₂⟩, ⟨f₂, hf₂⟩, hs₂⟩ := h₂
  exact ⟨⟨p₁ ++ p₂, by rw [hp₂, hp₁, List.append_assoc]⟩,
    ⟨f₁ ++ f₂, by rw [hf₂, hf₁, List.append_assoc]⟩, hs₂.trans hs₁⟩

theorem extends_pushPassing (st : AnalyzerState) (r : AuditRec) :
    AnalyzerExtends st (st.pushPassing r) :=
  ⟨⟨[r], rfl⟩, ⟨[], (List.append_nil _).symm⟩, rfl⟩

theorem extends_pushFailing (st : AnalyzerState) (r : AuditRec) :
    AnalyzerExtends st (st.pushFailing r) :=
  ⟨⟨[], (List.append_nil _).symm⟩, ⟨[r], rfl⟩, rfl⟩

theorem extends_pushDecision (st : AnalyzerState) (d : Nat × Bool) :
    AnalyzerExtends st (st.pushDecision d) :=
  ⟨⟨[], (List.append_nil _).symm⟩, ⟨[], (List.append_nil _).symm⟩, rfl⟩

/-- Lemma: bracketing a state evolution in a push/pop of the call stack
restores the stack and keeps the record growth. -/
theorem extends_pushStack_popStack {st st₁ : AnalyzerState} (childItem : Nat)
    (h : AnalyzerExtends (st.pushStack childItem) st₁) :
    AnalyzerExtends st st₁.popStack := by
  obtain ⟨⟨p, hp⟩, ⟨f, hf⟩, hs⟩ := h
  refine ⟨⟨p, hp⟩, ⟨f, hf⟩, ?_⟩
  show st₁.stack.tail = st.stack
  rw [hs]
  rfl

theorem runChildren_extends
    (handle : AnalyzerState → Nat → RefinedNode → Bool × AnalyzerState)
    (h : ∀ st c n, AnalyzerExtends st (handle st c n).2) :
    ∀ (cs : List Nat) (node : RefinedNode) (st : AnalyzerState),
      AnalyzerExtends st (runChildren handle cs node st).2 := by
  intro cs
  induction cs with
  | nil => intro node st; exact analyzerExtends_refl st
  | cons c rest ih =>
      intro node st
      simp only [runChildren]
      by_cases hc : c ∈ st.stack
      · rw [if_pos hc]
        exact ih node st
      · rw [if_neg hc]
        exact analyzerExtends_trans (h st c node) (ih node _)

theorem runNodes_extends
    (handle : AnalyzerState → Nat → RefinedNode → Bool × AnalyzerState)
    (h : ∀ st c n, AnalyzerExtends st (handle st c n).2) :
    ∀ (nodes : List RefinedNode) (st : AnalyzerState),
      AnalyzerExtends st (runNodes handle nodes st).2 := by
  intro nodes
  induction nodes with
  | nil => intro st; exact analyzerExtends_refl st
  | cons node rest ih =>
      intro st
      simp only [runNodes]
      by_cases hb : ((runChildren handle node.instances node st).1.all
          fun b => b) = true
      · rw [if_pos hb]
        exact analyzerExtends_trans (runChildren_extends handle h _ node st)
          (ih _)
      · rw [if_neg hb]
        exact runChildren_extends handle h _ node st

theorem allArgSets_extends
    (handle : AnalyzerState → List (Option Nat) → Bool × AnalyzerState)
    (h : ∀ st args, AnalyzerExtends st (handle st args).2) :
    ∀ (argSets : List (List (Option Nat))) (st : AnalyzerState),
      AnalyzerExtends st (allArgSets handle argSets st).2 := by
  intro argSets
  induction argSets with
  | nil => intro st; exact analyzerExtends_refl st
  | cons args rest ih =>
      intro st
      simp only [allArgSets]
      by_cases hb : (handle st args).1 = true
      · rw [if_pos hb]
        exact analyzerExtends_trans (h st args) (ih _)
      · rw [if_neg hb]
        exact h st args

theorem analyzeItemCore_extends (ctx : AnalyzerCtx)
    (childFn : AnalyzerState → Nat → List Nat → Nat → RefinedNode →
      Bool × AnalyzerState)
    (h : ∀ st b il c n, AnalyzerExtends st (childFn st b il c n).2) :
    ∀ (st : AnalyzerState) (item : Nat) (body : Option Nat)
      (il : List Nat),
      AnalyzerExtends st (analyzeItemCore ctx childFn st item body il).2 := by
  intro st item body il
  cases body with
  | none =>
      simp only [analyzeItemCore]
      by_cases ha : ctx.allowlist item = true
      · rw [if_pos ha]
        exact analyzerExtends_trans (extends_pushDecision st _)
          (extends_pushPassing _ _)
      · rw [if_neg ha]
        by_cases hil : il.isEmpty = true
        · rw [if_pos hil]
          exact analyzerExtends_trans (extends_pushDecision st _)
            (extends_pushPassing _ _)
        · rw [if_neg hil]
          exact analyzerExtends_trans (extends_pushDecision st _)
            (extends_pushFailing _ _)
  | some bodyId =>
      simp only [analyzeItemCore]
      by_cases ha : ctx.allowlist item = true
      · rw [if_pos ha]
        exact analyzerExtends_trans (extends_pushDecision st _)
          (extends_pushPassing _ _)
      · rw [if_neg ha]
        by_cases hil : il.isEmpty = true
        · rw [if_pos hil]
          exact analyzerExtends_trans (extends_pushDecision st _)
            (extends_pushPassing _ _)
        · rw [if_neg hil]
          by_cases ht : (ctx.trustedStdlib item &&
              !ctx.hasImmutSelfRef item) = true
          · rw [if_pos ht]
            exact analyzerExtends_trans (extends_pushDecision st _)
              (extends_pushPassing _ _)
          · rw [if_neg ht]
            have hrn :=
              runNodes_extends
                (fun st₂ childItem childNode =>
                  childFn st₂ bodyId il childItem childNode)
                (fun st₂ c n => h st₂ bodyId il c n)
                (ctx.getForwardEdges item) st
            by_cases hv : (!ctx.hasRawPtrDeref item &&
                !ctx.hasTransmute item &&
                (runNodes
                  (fun st₂ childItem childNode =>
                    childFn st₂ bodyId il childItem childNode)
                  (ctx.getForwardEdges item) st).1) = true
            · rw [if_pos hv]
              exact analyzerExtends_trans hrn
                (analyzerExtends_trans (extends_pushDecision _ _)
                  (extends_pushPassing _ _))
            · rw [if_neg hv]
              exact analyzerExtends_trans hrn
                (analyzerExtends_trans (extends_pushDecision _ _)
                  (extends_pushFailing _ _))

theorem analyzeChildF_extends (ctx : AnalyzerCtx) :
    ∀ (fuel : Nat) (st : AnalyzerState) (parentBody : Nat)
      (parentImportantLocals : List Nat) (childItem : Nat)
      (childNode : RefinedNode),
      AnalyzerExtends st
        (analyzeChildF ctx fuel st parentBody parentImportantLocals
          childItem childNode).2 := by
  intro fuel
  induction fuel with
  | zero => intro st _ _ _ _; exact analyzerExtends_refl st
  | succ fuel ih =>
      intro st parentBody parentImportantLocals childItem childNode
      simp only [analyzeChildF]
      apply allArgSets_extends
      intro st₁ args
      cases hsub : ctx.subMir childItem with
      | ok childBodyId =>
          simp only [hsub]
          exact extends_pushStack_popStack childItem
            (analyzeItemCore_extends ctx _
              (fun s b il c n => ih s b il c n) _ childItem
              (some childBodyId) _)
      | unimportantMir =>
          simp only [hsub]
          refine extends_pushStack_popStack childItem ?_
          exact analyzerExtends_trans
            (runNodes_extends _ (fun s c n => ih s _ _ c n)
              (ctx.getForwardEdges childItem) _)
            (extends_pushDecision _ _)
      | noCallableMir =>
          simp only [hsub]
          exact extends_pushStack_popStack childItem
            (analyzeItemCore_extends ctx _
              (fun s b il c n => ih s b il c n) _ childItem none _)
      | noMirFound =>
          simp only [hsub]
          exact extends_pushStack_popStack childItem
            (analyzeItemCore_extends ctx _
              (fun s b il c n => ih s b il c n) _ childItem none _)

theorem getLast?_append_singleton {α : Type} (l : List α) (a : α) :
    (l ++ [a]).getLast? = some a := by
  simp [List.getLast?_eq_head?_reverse, List.reverse_append]

/-- C9 counterexample: in `analyzerCtxUnimportantSkip` the analyzer makes a
failing pass/fail decision for unit 1 (recorded in the ghost decision
trace, and the run's overall verdict is driven by it), yet neither result
list receives any audit record for unit 1 — unit 1's dataflow body is
"unimportant MIR", a pass-through the claim does not exclude.  Unit 2, by
contrast, is recorded normally. -/
theorem analyzer_audit_record_counterexample :
    (1, false) ∈ (runAnalysis analyzerCtxUnimportantSkip 5 0 [1]).2.decisions ∧
    (runAnalysis analyzerCtxUnimportantSkip 5 0 [1]).2.passingCalls.countP
      (fun r => r.function == 1) = 0 ∧
    (runAnalysis analyzerCtxUnimportantSkip 5 0 [1]).2.failingCalls.countP
      (fun r => r.function == 1) = 0 ∧
    (runAnalysis analyzerCtxUnimportantSkip 5 0 [1]).2.failingCalls.countP
      (fun r => r.function == 2) = 1 ∧
    (runAnalysis analyzerCtxUnimportantSkip 5 0 [1]).1 = false := by
  decide

/-- C9 amended: every `analyze_item` evaluation — but neither the
already-on-stack shortcut nor the unimportant-dataflow-MIR pass-through,
which record nothing — appends exactly one audit record for the decided
unit, at the end of the passing list if the decision was pass and at the
end of the failing list if it was fail (child decisions contribute only the
middle segments); the call stack is restored and the decision itself is the
last entry of the decision trace. -/
theorem analyzer_item_decision_appends_one_record :
    ∀ (ctx : AnalyzerCtx) (fuel : Nat) (st : AnalyzerState) (item : Nat)
      (body : Option Nat) (il : List Nat),
      ∃ (childP childF : List AuditRec) (r₀ : AuditRec),
        r₀.function = item ∧
        (analyzeItemF ctx fuel st item body il).2.passingCalls =
          st.passingCalls ++ childP ++
            (if (analyzeItemF ctx fuel st item body il).1 then [r₀]
             else []) ∧
        (analyzeItemF ctx fuel st item body il).2.failingCalls =
          st.failingCalls ++ childF ++
            (if (analyzeItemF ctx fuel st item body il).1 then []
             else [r₀]) ∧
        (analyzeItemF ctx fuel st item body il).2.stack = st.stack ∧
        (analyzeItemF ctx fuel st item body il).2.decisions.getLast? =
          some (item, (analyzeItemF ctx fuel st item body il).1) := by
  intro ctx fuel st item body il
  by_cases ha : ctx.allowlist item = true
  · refine ⟨[], [], ⟨item, il, false, true, false⟩, rfl, ?_, ?_, ?_, ?_⟩ <;>
      simp [analyzeItemF, analyzeItemCore, ha, AnalyzerState.pushPassing,
        AnalyzerState.pushDecision, getLast?_append_singleton]
  · by_cases hil : il.isEmpty = true
    · refine ⟨[], [], ⟨item, il, false, false, false⟩, rfl, ?_, ?_, ?_,
        ?_⟩ <;>
        simp [analyzeItemF, analyzeItemCore, ha, hil,
          AnalyzerState.pushPassing, AnalyzerState.pushDecision,
          getLast?_append_singleton]
    · cases body with
      | none =>
          refine ⟨[], [], ⟨item, il, false, false, false⟩, rfl, ?_, ?_, ?_,
            ?_⟩ <;>
            simp [analyzeItemF, analyzeItemCore, ha, hil,
              AnalyzerState.pushFailing, AnalyzerState.pushDecision,
              getLast?_append_singleton]
      | some bodyId =>
          by_cases ht : (ctx.trustedStdlib item &&
              !ctx.hasImmutSelfRef item) = true
          · refine ⟨[], [],
              ⟨item, il, ctx.hasRawPtrDeref item, false,
                ctx.hasTransmute item⟩, rfl, ?_, ?_, ?_, ?_⟩ <;>
              simp [analyzeItemF, analyzeItemCore, ha, hil, ht,
                AnalyzerState.pushPassing, AnalyzerState.pushDecision,
                getLast?_append_singleton]
          · obtain ⟨⟨p, hp⟩, ⟨f, hf⟩, hs⟩ :=
              runNodes_extends
                (fun st₂ childItem childNode =>
                  analyzeChildF ctx fuel st₂ bodyId il childItem childNode)
                (fun s c n => analyzeChildF_extends ctx fuel s bodyId il c n)
                (ctx.getForwardEdges item) st
            by_cases hv : (!ctx.hasRawPtrDeref item &&
                !ctx.hasTransmute item &&
                (runNodes
                  (fun st₂ childItem childNode =>
                    analyzeChildF ctx fuel st₂ bodyId il childItem
                      childNode)
                  (ctx.getForwardEdges item) st).1) = true
            · refine ⟨p, f,
                ⟨item, il, ctx.hasRawPtrDeref item, false,
                  ctx.hasTransmute item⟩, rfl, ?_, ?_, ?_, ?_⟩ <;>
                simp [analyzeItemF, analyzeItemCore, ha, hil, ht, hv,
                  AnalyzerState.pushPassing, AnalyzerState.pushDecision,
                  getLast?_append_singleton, hp, hf, hs]
            · refine ⟨p, f,
                ⟨item, il, ctx.hasRawPtrDeref item, false,
                  ctx.hasTransmute item⟩, rfl, ?_, ?_, ?_, ?_⟩ <;>
                simp [analyzeItemF, analyzeItemCore, ha, hil, ht, hv,
                  AnalyzerState.pushFailing, AnalyzerState.pushDecision,
                  getLast?_append_singleton, hp, hf, hs]

/-- C10: transitioning the important-locals set into a non-constructor,
non-closure callee without a retrievable dataflow body yields exactly the
callee parameter locals at positions whose caller-side argument operand is
a whole local contained in the caller's important set (argument index `i`
maps to callee local `i + 1`), and the dataflow oracle is not consulted
(the result is the same for every oracle). -/
theorem transition_without_body_maps_whole_locals :
    ∀ (tc : TransitionCtx) (selfLocals : List Nat)
      (argsFromCaller : List (Option Nat)) (calleeInstance : Nat),
      tc.isConstructor calleeInstance = false →
      tc.isClosure calleeInstance = false →
      ((∀ j, j ∈ ImportantLocals.transition tc selfLocals argsFromCaller
          calleeInstance none ↔
        ∃ i l, argsFromCaller[i]? = some (some l) ∧ l ∈ selfLocals ∧
          j = i + 1) ∧
       ∀ tc' : TransitionCtx,
        tc'.isConstructor = tc.isConstructor →
        tc'.isClosure = tc.isClosure →
        tc'.numArgs = tc.numArgs →
        ImportantLocals.transition tc' selfLocals argsFromCaller
          calleeInstance none =
        ImportantLocals.transition tc selfLocals argsFromCaller
          calleeInstance none) := by
  intro tc selfLocals argsFromCaller calleeInstance hcons hclos
  have hred : ∀ tc₀ : TransitionCtx,
      tc₀.isConstructor calleeInstance = false →
      tc₀.isClosure calleeInstance = false →
      ImportantLocals.transition tc₀ selfLocals argsFromCaller
        calleeInstance none =
      argsFromCaller.enum.filterMap
        (fun p => p.2.bind (fun l =>
          if l ∈ selfLocals then some (p.1 + 1) else none)) := by
    intro tc₀ h₁ h₂
    unfold ImportantLocals.transition
    rw [if_neg (by rw [h₁]; exact Bool.false_ne_true)]
    rw [if_neg (by rw [h₂]; exact Bool.false_ne_true)]
  constructor
  · intro j
    rw [hred tc hcons hclos, List.mem_filterMap]
    constructor
    · rintro ⟨⟨i, a⟩, hmem, hf⟩
      rw [List.mk_mem_enum_iff_getElem?] at hmem
      cases a with
      | none => exact Option.noConfusion hf
      | some l =>
          have hf₁ : (if l ∈ selfLocals then some (i + 1) else none) =
              some j := hf
          by_cases hl : l ∈ selfLocals
          · rw [if_pos hl] at hf₁
            exact ⟨i, l, hmem, hl, (Option.some.inj hf₁).symm⟩
          · rw [if_neg hl] at hf₁
            exact Option.noConfusion hf₁
    · rintro ⟨i, l, hget, hl, rfl⟩
      refine ⟨(i, some l), ?_, ?_⟩
      · rw [List.mk_mem_enum_iff_getElem?]
        exact hget
      · show (if l ∈ selfLocals then some (i + 1) else none) = some (i + 1)
        rw [if_pos hl]
  · intro tc' h₁ h₂ _
    rw [hred tc hcons hclos, hred tc' (by rw [h₁, hcons]) (by rw [h₂, hclos])]

/-- Witness for C10: arguments `[some 3, none, some 4]` against the
important set `[3, 7]` transition to exactly `[1]`, independently of the
oracle of `transitionCtxPlain`. -/
theorem transition_without_body_maps_whole_locals_witness :
    ((3 : Nat) ∈ ImportantLocals.transition transitionCtxPlain [3, 7]
        [some 3, none, some 4] 0 none ↔
      ∃ i l, ([some 3, none, some 4] : List (Option Nat))[i]? =
          some (some l) ∧ l ∈ ([3, 7] : List Nat) ∧ (3 : Nat) = i + 1) ∧
    ImportantLocals.transition
        ⟨transitionCtxPlain.isConstructor, transitionCtxPlain.isClosure,
          transitionCtxPlain.numArgs, fun _ _ _ => []⟩ [3, 7]
        [some 3, none, some 4] 0 none =
      ImportantLocals.transition transitionCtxPlain [3, 7]
        [some 3, none, some 4] 0 none :=
  ⟨(transition_without_body_maps_whole_locals transitionCtxPlain [3, 7]
      [some 3, none, some 4] 0 (by decide) (by decide)).1 3,
   (transition_without_body_maps_whole_locals transitionCtxPlain [3, 7]
      [some 3, none, some 4] 0 (by decide) (by decide)).2
     ⟨transitionCtxPlain.isConstructor, transitionCtxPlain.isClosure,
       transitionCtxPlain.numArgs, fun _ _ _ => []⟩ rfl rfl rfl⟩

end Pear
